import Mathlib

/-!
Shallow embedding of the `gl-wrapper` repository (a typed layer over OpenGL
plus a minimal GUI toolkit) for checking its natural-language specification.

Machine integers are modelled as `Nat`/`Int` (the arithmetic in the embedded
code stays far below the 32-bit range except where a cast is modelled
explicitly), `f32`/`f64` values as `ℚ` (only the additive structure of the
float computations is relevant to the claims), hash maps as association
lists with first-match lookup, and panics as `Except String` errors.
-/

/-- `event.code` keycodes are strings (`src/gui/event.rs`, `pub type Keycode = String`). -/
def Keycode := String

instance : DecidableEq Keycode := by unfold Keycode; infer_instance

/-- A key (`src/gui/event.rs`, `struct Key`). -/
structure Key where
  code : String
  shift : Bool
  ctrl : Bool
  alt : Bool
  isModifier : Bool
deriving DecidableEq

/-- Mouse buttons (`src/gui/event.rs`, `enum MouseButton`). -/
inductive MouseButton where
  | left
  | right
  | middle
  | back
  | forward
deriving DecidableEq

/-- `Point2<i32>` from cgmath, as used for cursor positions. -/
structure Pt where
  x : Int
  y : Int
deriving DecidableEq

/-- `Vector2<i32>` from cgmath. -/
structure Vec2 where
  x : Int
  y : Int
deriving DecidableEq

/-- `pos - rect.start.to_vec()`: componentwise difference of points. -/
def Pt.sub (p q : Pt) : Pt :=
  ⟨p.x - q.x, p.y - q.y⟩

/-- The uniform event enum (`src/gui/event.rs`, `enum Event`).
`WindowResized` carries a `Vector2<u32>` (a pair of naturals here) and
`Scroll` an `f64` (modelled as `ℚ`). -/
inductive Event where
  | keyDown (k : Key)
  | keyUp (k : Key)
  | charEntered (c : Char)
  | mouseDown (b : MouseButton) (pos : Pt)
  | mouseUp (b : MouseButton) (pos : Pt)
  | mouseMove (pos : Pt) (movement : Vec2)
  | mouseEnter
  | mouseLeave
  | focusGained
  | focusLost
  | windowResized (size : Nat × Nat)
  | pointerLocked
  | pointerUnlocked
  | scroll (amount : ℚ)
deriving DecidableEq

/-- Modelled from the spec: the repository's `src/gl/rect.rs` (declared by
`mod rect` in `src/gl/mod.rs`) is not part of the provided sources.  A
`Rect<i32>` is an axis-aligned rectangle given by its start (top-left) and
end corners, as used by the layout engine ("bottom-up min-size, top-down
rect assignment"). -/
structure Rect where
  start : Pt
  stop : Pt
deriving DecidableEq

/-- Modelled from the spec: `Rect::contains_point` of the missing
`src/gl/rect.rs`, per the spec's hit-testing description ("the event
position lies inside the component's laid-out rect"): the point lies in
the half-open box spanned by the two corners. -/
def Rect.containsPoint (r : Rect) (p : Pt) : Bool :=
  decide (r.start.x ≤ p.x) && decide (p.x < r.stop.x) &&
    decide (r.start.y ≤ p.y) && decide (p.y < r.stop.y)

/-- Association-list lookup (first match wins), modelling `FxHashMap` access. -/
def alLookup {β : Type} (k : Nat) : List (Nat × β) → Option β
  | [] => none
  | (k', v) :: rest => if k' = k then some v else alLookup k rest

/-- Association-list insert, modelling `FxHashMap::insert`
(later inserts shadow earlier entries). -/
def alInsert {β : Type} (k : Nat) (v : β) (m : List (Nat × β)) : List (Nat × β) :=
  (k, v) :: m

/-- `FxHashMap::contains_key`. -/
def alContains {β : Type} (k : Nat) (m : List (Nat × β)) : Bool :=
  (alLookup k m).isSome

/-- The per-component event queues built by `widget_handle_event`:
`events_out.entry(widget.id()).or_insert_with(Vec::new).push(event2)`. -/
def pushEvent (m : List (Nat × List Event)) (id : Nat) (e : Event) :
    List (Nat × List Event) :=
  alInsert id (((alLookup id m).getD []) ++ [e]) m

@[simp] theorem alLookup_nil {β : Type} (k : Nat) : alLookup (β := β) k [] = none := rfl

@[simp] theorem alLookup_cons {β : Type} (k k' : Nat) (v : β) (m : List (Nat × β)) :
    alLookup k ((k', v) :: m) = if k' = k then some v else alLookup k m := rfl

@[simp] theorem alLookup_insert {β : Type} (k : Nat) (v : β) (m : List (Nat × β)) :
    alLookup k (alInsert k v m) = some v := by
  simp [alInsert]

theorem alLookup_insert_ne {β : Type} (k k' : Nat) (v : β) (m : List (Nat × β))
    (h : k' ≠ k) : alLookup k (alInsert k' v m) = alLookup k m := by
  simp [alInsert, h]

/-- The event filter at the heart of `widget_handle_event`
(`src/gui/gui.rs` lines 126-180): given whether this component is the
active one and its laid-out rect, decide whether the component accepts the
event and, for mouse events, translate the position so it is relative to
the rect's start corner.  The mutation of `active_component_id` performed
in the accepted `MouseDown` arm is modelled separately by
`activeAfterAccept`. -/
def acceptEvent (isActive : Bool) (rect : Rect) (e : Event) : Option Event :=
  match e with
  | .keyDown _ => if isActive then some e else none
  | .keyUp _ => if isActive then some e else none
  | .charEntered _ => if isActive then some e else none
  | .mouseDown b pos =>
      if rect.containsPoint pos then some (.mouseDown b (pos.sub rect.start)) else none
  | .mouseUp b pos =>
      if rect.containsPoint pos then some (.mouseUp b (pos.sub rect.start)) else none
  | .mouseMove pos movement =>
      if rect.containsPoint pos then
        some (.mouseMove (pos.sub rect.start) movement)
      else none
  | .mouseEnter => none
  | .mouseLeave => none
  | .focusGained => some e
  | .focusLost => some e
  | .windowResized _ => some e
  | .pointerLocked => none
  | .pointerUnlocked => none
  | .scroll _ => some e

/-- The update of `*active_component_id` performed inside the accepted
`MouseDown` arm of `widget_handle_event`: a left-button press inside the
rect focuses this component (`src/gui/gui.rs` lines 148-157). -/
def activeAfterAccept (id : Nat) (rect : Rect) (e : Event) (active : Option Nat) :
    Option Nat :=
  match e with
  | .mouseDown b pos =>
      if rect.containsPoint pos && b == .left then some id else active
  | _ => active

example :
    acceptEvent false ⟨⟨0, 0⟩, ⟨10, 10⟩⟩ (.mouseDown .left ⟨3, 4⟩) =
      some (.mouseDown .left ⟨3, 4⟩) := by decide

example :
    acceptEvent false ⟨⟨2, 2⟩, ⟨10, 10⟩⟩ (.mouseUp .right ⟨3, 4⟩) =
      some (.mouseUp .right ⟨1, 2⟩) := by decide

example : acceptEvent true ⟨⟨0, 0⟩, ⟨10, 10⟩⟩ .mouseEnter = none := by decide

/-- A widget tree, embedding the `Widget` trait object graph
(`src/gui/gui.rs`, `trait Widget`): every widget has an id
(`Widget::id`), the component flag (`Widget::is_component`), its
`min_size` method (a function of the `min_sizes` map; the `context`,
`theme` and `window_size` arguments, fixed for a whole layout pass, are
absorbed into the closure), its `compute_rects` override in the shape the
trait contract prescribes (the rect the widget inserts for itself and the
rect it passes to its i-th child, both functions of the incoming rect and
the `min_sizes` map), and its children (`Widget::children`). -/
inductive WTree where
  | node (id : Nat) (isComp : Bool)
      (minSize : List (Nat × Vec2) → Vec2)
      (ownRect : Rect → List (Nat × Vec2) → Rect)
      (childRect : Rect → List (Nat × Vec2) → Nat → Rect)
      (children : List WTree)

/-- `Widget::id`. -/
def WTree.id : WTree → Nat
  | .node id _ _ _ _ _ => id

/-- `Widget::is_component`. -/
def WTree.isComp : WTree → Bool
  | .node _ c _ _ _ _ => c

/-- `Widget::min_size` as a function of the min-size map. -/
def WTree.minSize : WTree → (List (Nat × Vec2) → Vec2)
  | .node _ _ ms _ _ _ => ms

/-- The rect a widget's `compute_rects` inserts for itself. -/
def WTree.ownRect : WTree → (Rect → List (Nat × Vec2) → Rect)
  | .node _ _ _ o _ _ => o

/-- The rect a widget's `compute_rects` passes to its i-th child. -/
def WTree.childRect : WTree → (Rect → List (Nat × Vec2) → Nat → Rect)
  | .node _ _ _ _ cr _ => cr

/-- `Widget::children`. -/
def WTree.children : WTree → List WTree
  | .node _ _ _ _ _ cs => cs

theorem WTree.sizeOf_children_lt (w : WTree) : sizeOf w.children < sizeOf w := by
  cases w with
  | node id c ms o cr cs => simp [WTree.children]

theorem WTree.sizeOf_mem_children_lt {c : WTree} {w : WTree} (h : c ∈ w.children) :
    sizeOf c < sizeOf w :=
  Nat.lt_trans (List.sizeOf_lt_of_mem h) (WTree.sizeOf_children_lt w)

mutual

/-- `widget_handle_event` (`src/gui/gui.rs` lines 113-200): if the widget
is a component, apply the event filter; on acceptance push the (possibly
translated) event onto this component's queue, update the focus as the
accepted `MouseDown` arm does, and report the event handled; otherwise
recurse into the children, stopping at the first child that handles the
event.  The looked-up `widget_rects` map is passed as the total function
`rects` (the claims presuppose a tree previously laid out by `Gui::draw`,
which gives every widget a rect). -/
def widgetHandleEvent (w : WTree) (e : Event) (rects : Nat → Rect)
    (out : List (Nat × List Event)) (active : Option Nat) :
    List (Nat × List Event) × Option Nat × Bool :=
  if w.isComp then
    match acceptEvent (active == some w.id) (rects w.id) e with
    | some e2 =>
        (pushEvent out w.id e2, activeAfterAccept w.id (rects w.id) e active, true)
    | none => widgetHandleEventList w.children e rects out active
  else widgetHandleEventList w.children e rects out active
termination_by sizeOf w
decreasing_by
  all_goals simp_wf
  all_goals exact WTree.sizeOf_children_lt w

/-- The `for child in widget.children()` loop of `widget_handle_event`:
returns at the first child that handles the event. -/
def widgetHandleEventList (ws : List WTree) (e : Event) (rects : Nat → Rect)
    (out : List (Nat × List Event)) (active : Option Nat) :
    List (Nat × List Event) × Option Nat × Bool :=
  match ws with
  | [] => (out, active, false)
  | c :: cs =>
      let r := widgetHandleEvent c e rects out active
      if r.2.2 then r else widgetHandleEventList cs e rects r.1 r.2.1
termination_by sizeOf ws
decreasing_by
  all_goals simp_wf
  all_goals omega

end

mutual

/-- Pre-order listing of a widget tree: the widget itself, then its
children's subtrees left to right — the order in which
`widget_handle_event` visits widgets. -/
def preorder (w : WTree) : List WTree :=
  w :: preorderList w.children
termination_by sizeOf w
decreasing_by
  all_goals simp_wf
  all_goals exact WTree.sizeOf_children_lt w

/-- Pre-order listing of a forest. -/
def preorderList (ws : List WTree) : List WTree :=
  match ws with
  | [] => []
  | c :: cs => preorder c ++ preorderList cs
termination_by sizeOf ws
decreasing_by
  all_goals simp_wf
  all_goals omega

end

/-- A widget receives the event: it is a component and its event filter
accepts the event (given the focus state at the start of the dispatch). -/
def receivesPred (e : Event) (rects : Nat → Rect) (active : Option Nat) (c : WTree) : Bool :=
  c.isComp && (acceptEvent (active == some c.id) (rects c.id) e).isSome

theorem alFind_append {α : Type} (p : α → Bool) (l₁ l₂ : List α) :
    (l₁ ++ l₂).find? p = ((l₁.find? p).orElse fun _ => l₂.find? p) := by
  induction l₁ with
  | nil => simp
  | cons a l ih =>
      by_cases h : p a
      · simp [List.find?_cons_of_pos _ h, Option.orElse]
      · simp [List.find?_cons_of_neg _ h, ih]

mutual

/-- `widget_handle_event` delivers the event to the first widget in
pre-order that is a component and accepts it, pushing the translated
event onto that component's queue, and touches nothing when no component
accepts. -/
theorem widgetHandleEvent_route (e : Event) (rects : Nat → Rect) (active : Option Nat)
    (w : WTree) (out : List (Nat × List Event)) :
    widgetHandleEvent w e rects out active =
      match (preorder w).find? (receivesPred e rects active) with
      | none => (out, active, false)
      | some c =>
          (pushEvent out c.id ((acceptEvent (active == some c.id) (rects c.id) e).getD e),
            activeAfterAccept c.id (rects c.id) e active, true) := by
  rw [widgetHandleEvent, preorder]
  by_cases hc : w.isComp
  · cases h : acceptEvent (active == some w.id) (rects w.id) e with
    | some e2 =>
        have hp : receivesPred e rects active w = true := by
          simp [receivesPred, hc, h]
        rw [List.find?_cons_of_pos _ hp]
        simp [hc, h]
    | none =>
        have hp : ¬ receivesPred e rects active w = true := by
          simp [receivesPred, hc, h]
        rw [List.find?_cons_of_neg _ hp]
        simp only [hc, if_true, h]
        exact widgetHandleEventList_route e rects active w.children out
  · have hp : ¬ receivesPred e rects active w = true := by
      simp [receivesPred, hc]
    rw [List.find?_cons_of_neg _ hp]
    simp only [hc, if_false]
    exact widgetHandleEventList_route e rects active w.children out
termination_by sizeOf w
decreasing_by
  all_goals exact WTree.sizeOf_children_lt w

/-- The child loop of `widget_handle_event` delivers to the first
accepting component in the pre-order listing of the forest. -/
theorem widgetHandleEventList_route (e : Event) (rects : Nat → Rect) (active : Option Nat)
    (ws : List WTree) (out : List (Nat × List Event)) :
    widgetHandleEventList ws e rects out active =
      match (preorderList ws).find? (receivesPred e rects active) with
      | none => (out, active, false)
      | some c =>
          (pushEvent out c.id ((acceptEvent (active == some c.id) (rects c.id) e).getD e),
            activeAfterAccept c.id (rects c.id) e active, true) := by
  match ws with
  | [] => rw [widgetHandleEventList, preorderList]; simp
  | c :: cs =>
      rw [widgetHandleEventList, preorderList, alFind_append]
      rw [widgetHandleEvent_route e rects active c out]
      cases h : (preorder c).find? (receivesPred e rects active) with
      | some c0 => rfl
      | none => exact widgetHandleEventList_route e rects active cs out
termination_by sizeOf ws
decreasing_by
  all_goals simp_wf
  all_goals omega

end

/-- **C1**: for a widget tree previously laid out by `Gui::draw`, each event
handled by `Gui::handle_events` is received by at most one component,
namely the first widget in pre-order that is a component and whose filter
accepts the event; `KeyDown`/`KeyUp`/`CharEntered` are accepted exactly
when the component is the active one; `MouseDown`/`MouseUp`/`MouseMove`
are accepted exactly when the position lies inside the component's rect
and are then delivered with the position translated relative to the
rect's start corner; `MouseEnter`, `MouseLeave`, `PointerLocked` and
`PointerUnlocked` are never delivered to any component. -/
theorem C1_event_routing (w : WTree) (e : Event) (rects : Nat → Rect)
    (out : List (Nat × List Event)) (active : Option Nat) :
    (match (preorder w).find? (receivesPred e rects active) with
      | none => widgetHandleEvent w e rects out active = (out, active, false)
      | some c => c.isComp = true ∧ ∃ e2,
          acceptEvent (active == some c.id) (rects c.id) e = some e2 ∧
          widgetHandleEvent w e rects out active =
            (pushEvent out c.id e2, activeAfterAccept c.id (rects c.id) e active, true))
    ∧ (∀ isActive rect k,
        acceptEvent isActive rect (Event.keyDown k) =
          if isActive then some (Event.keyDown k) else none)
    ∧ (∀ isActive rect k,
        acceptEvent isActive rect (Event.keyUp k) =
          if isActive then some (Event.keyUp k) else none)
    ∧ (∀ isActive rect ch,
        acceptEvent isActive rect (Event.charEntered ch) =
          if isActive then some (Event.charEntered ch) else none)
    ∧ (∀ isActive rect b pos,
        acceptEvent isActive rect (Event.mouseDown b pos) =
          if rect.containsPoint pos then some (Event.mouseDown b (pos.sub rect.start))
          else none)
    ∧ (∀ isActive rect b pos,
        acceptEvent isActive rect (Event.mouseUp b pos) =
          if rect.containsPoint pos then some (Event.mouseUp b (pos.sub rect.start))
          else none)
    ∧ (∀ isActive rect pos mv,
        acceptEvent isActive rect (Event.mouseMove pos mv) =
          if rect.containsPoint pos then some (Event.mouseMove (pos.sub rect.start) mv)
          else none)
    ∧ (∀ isActive rect,
        acceptEvent isActive rect Event.mouseEnter = none ∧
        acceptEvent isActive rect Event.mouseLeave = none ∧
        acceptEvent isActive rect Event.pointerLocked = none ∧
        acceptEvent isActive rect Event.pointerUnlocked = none) := by
  refine ⟨?_, fun _ _ _ => rfl, fun _ _ _ => rfl, fun _ _ _ => rfl,
    fun _ _ _ _ => rfl, fun _ _ _ _ => rfl, fun _ _ _ _ => rfl,
    fun _ _ => ⟨rfl, rfl, rfl, rfl⟩⟩
  have h := widgetHandleEvent_route e rects active w out
  cases hf : (preorder w).find? (receivesPred e rects active) with
  | none => rw [hf] at h; exact h
  | some c =>
      rw [hf] at h
      have hp := List.find?_some hf
      simp only [receivesPred, Bool.and_eq_true, Option.isSome_iff_exists] at hp
      obtain ⟨hcomp, e2, he2⟩ := hp
      refine ⟨hcomp, e2, he2, ?_⟩
      rw [h]
      simp [he2]

mutual

/-- `compute_widget_min_size` (`src/gui/gui.rs` lines 99-111): recurse into
all children first, then ask the widget for its own min size and insert
it into the map. -/
def computeWidgetMinSize (w : WTree) (minSizes : List (Nat × Vec2)) :
    List (Nat × Vec2) :=
  let m := computeWidgetMinSizeList w.children minSizes
  alInsert w.id (w.minSize m) m
termination_by sizeOf w
decreasing_by
  all_goals exact WTree.sizeOf_children_lt w

/-- The `for child in widget.children()` loop of `compute_widget_min_size`. -/
def computeWidgetMinSizeList (ws : List WTree) (minSizes : List (Nat × Vec2)) :
    List (Nat × Vec2) :=
  match ws with
  | [] => minSizes
  | c :: cs => computeWidgetMinSizeList cs (computeWidgetMinSize c minSizes)
termination_by sizeOf ws
decreasing_by
  all_goals simp_wf
  all_goals omega

end

mutual

/-- Instrumentation of `compute_widget_min_size`: the list of
`Widget::min_size` invocations the bottom-up pass performs, each paired
with the `min_sizes` map passed to it at that moment. -/
def minSizeCallLog (w : WTree) (m : List (Nat × Vec2)) :
    List (WTree × List (Nat × Vec2)) :=
  minSizeCallLogList w.children m ++ [(w, computeWidgetMinSizeList w.children m)]
termination_by sizeOf w
decreasing_by
  all_goals exact WTree.sizeOf_children_lt w

/-- Instrumentation of the child loop of `compute_widget_min_size`. -/
def minSizeCallLogList (ws : List WTree) (m : List (Nat × Vec2)) :
    List (WTree × List (Nat × Vec2)) :=
  match ws with
  | [] => []
  | c :: cs => minSizeCallLog c m ++ minSizeCallLogList cs (computeWidgetMinSize c m)
termination_by sizeOf ws
decreasing_by
  all_goals simp_wf
  all_goals omega

end

mutual

/-- All widget ids in a subtree. -/
def subtreeIds (w : WTree) : List Nat :=
  w.id :: forestIds w.children
termination_by sizeOf w
decreasing_by
  all_goals exact WTree.sizeOf_children_lt w

/-- All widget ids in a forest. -/
def forestIds (ws : List WTree) : List Nat :=
  match ws with
  | [] => []
  | c :: cs => subtreeIds c ++ forestIds cs
termination_by sizeOf ws
decreasing_by
  all_goals simp_wf
  all_goals omega

end

mutual

/-- `Widget::compute_rects` in the shape the trait contract prescribes
(`src/gui/gui.rs` lines 86-96): insert this widget's own rect into
`widget_rects`, then recurse into each child with the rect the widget
assigns to it. -/
def computeRects (w : WTree) (rect : Rect) (minSizes : List (Nat × Vec2))
    (widgetRects : List (Nat × Rect)) : List (Nat × Rect) :=
  computeRectsList (w.childRect rect minSizes) w.children minSizes 0
    (alInsert w.id (w.ownRect rect minSizes) widgetRects)
termination_by sizeOf w
decreasing_by
  all_goals exact WTree.sizeOf_children_lt w

/-- The child loop of `compute_rects`. -/
def computeRectsList (cr : Nat → Rect) (ws : List WTree) (minSizes : List (Nat × Vec2))
    (i : Nat) (m : List (Nat × Rect)) : List (Nat × Rect) :=
  match ws with
  | [] => m
  | c :: cs => computeRectsList cr cs minSizes (i + 1) (computeRects c (cr i) minSizes m)
termination_by sizeOf ws
decreasing_by
  all_goals simp_wf
  all_goals omega

end

/-- Modelled from the spec: `Rect::size` of the missing `src/gl/rect.rs`:
the extent of the rectangle, end corner minus start corner. -/
def Rect.size (r : Rect) : Vec2 :=
  ⟨r.stop.x - r.start.x, r.stop.y - r.start.y⟩

/-- `struct RenderedGui` (`src/gui/gui.rs` lines 270-273). -/
structure RenderedGui where
  widget : WTree
  widgetRects : List (Nat × Rect)

/-- `struct Gui` (`src/gui/gui.rs` lines 264-268): the focus state
`(index into ordered_components, widget id)` and the last rendered tree. -/
structure Gui where
  activeComponent : Option (Int × Nat)
  lastRender : Option RenderedGui

/-- `Gui::new`. -/
def Gui.new : Gui :=
  { activeComponent := none, lastRender := none }

/-- `Gui::draw` (`src/gui/gui.rs` lines 281-317): run the bottom-up
min-size pass from an empty map, assign rects top-down starting from the
full surface rectangle, store the rendered tree, and report the root's
rendered size (`widget_rects[&widget.id()].size()`; the lookup is kept as
an `Option` since the root's rect is always present).  The `draw_widget`
call only renders and does not affect layout or event state, so it is not
modelled. -/
def Gui.draw (g : Gui) (surfaceSize : Pt) (w : WTree) : Gui × Option Vec2 :=
  let minSizes := computeWidgetMinSize w []
  let rect : Rect := ⟨⟨0, 0⟩, surfaceSize⟩
  let widgetRects := computeRects w rect minSizes []
  ({ g with lastRender := some ⟨w, widgetRects⟩ },
    (alLookup w.id widgetRects).map Rect.size)

@[simp] theorem alContains_insert {β : Type} (k k' : Nat) (v : β) (m : List (Nat × β)) :
    alContains k (alInsert k' v m) = (decide (k' = k) || alContains k m) := by
  by_cases h : k' = k <;> simp [alContains, alInsert, h]

mutual

theorem computeWidgetMinSize_mono (w : WTree) (m : List (Nat × Vec2)) (k : Nat)
    (h : alContains k m = true) : alContains k (computeWidgetMinSize w m) = true := by
  rw [computeWidgetMinSize]
  simp only [alContains_insert, Bool.or_eq_true, decide_eq_true_eq]
  exact Or.inr (computeWidgetMinSizeList_mono w.children m k h)
termination_by sizeOf w
decreasing_by
  all_goals exact WTree.sizeOf_children_lt w

theorem computeWidgetMinSizeList_mono (ws : List WTree) (m : List (Nat × Vec2)) (k : Nat)
    (h : alContains k m = true) : alContains k (computeWidgetMinSizeList ws m) = true := by
  match ws with
  | [] => rw [computeWidgetMinSizeList]; exact h
  | c :: cs =>
      rw [computeWidgetMinSizeList]
      exact computeWidgetMinSizeList_mono cs _ k (computeWidgetMinSize_mono c m k h)
termination_by sizeOf ws
decreasing_by
  all_goals simp_wf
  all_goals omega

end

mutual

theorem computeWidgetMinSize_covers (w : WTree) (m : List (Nat × Vec2)) :
    ∀ k ∈ subtreeIds w, alContains k (computeWidgetMinSize w m) = true := by
  intro k hk
  rw [subtreeIds] at hk
  rw [computeWidgetMinSize]
  simp only [alContains_insert, Bool.or_eq_true, decide_eq_true_eq]
  rcases List.mem_cons.mp hk with h | h
  · exact Or.inl h.symm
  · exact Or.inr (computeWidgetMinSizeList_covers w.children m k h)
termination_by sizeOf w
decreasing_by
  all_goals exact WTree.sizeOf_children_lt w

theorem computeWidgetMinSizeList_covers (ws : List WTree) (m : List (Nat × Vec2)) :
    ∀ k ∈ forestIds ws, alContains k (computeWidgetMinSizeList ws m) = true := by
  intro k hk
  match ws with
  | [] => rw [forestIds] at hk; simp at hk
  | c :: cs =>
      rw [forestIds] at hk
      rw [computeWidgetMinSizeList]
      rcases List.mem_append.mp hk with h | h
      · exact computeWidgetMinSizeList_mono cs _ k (computeWidgetMinSize_covers c m k h)
      · exact computeWidgetMinSizeList_covers cs _ k h
termination_by sizeOf ws
decreasing_by
  all_goals simp_wf
  all_goals omega

end

mutual

theorem minSizeCallLog_containment (w : WTree) (m : List (Nat × Vec2)) :
    ∀ p ∈ minSizeCallLog w m, ∀ d ∈ forestIds p.1.children, alContains d p.2 = true := by
  intro p hp
  rw [minSizeCallLog] at hp
  rcases List.mem_append.mp hp with h | h
  · exact minSizeCallLogList_containment w.children m p h
  · intro d hd
    rcases List.mem_singleton.mp h with rfl
    exact computeWidgetMinSizeList_covers w.children m d hd
termination_by sizeOf w
decreasing_by
  all_goals exact WTree.sizeOf_children_lt w

theorem minSizeCallLogList_containment (ws : List WTree) (m : List (Nat × Vec2)) :
    ∀ p ∈ minSizeCallLogList ws m, ∀ d ∈ forestIds p.1.children, alContains d p.2 = true := by
  intro p hp
  match ws with
  | [] => rw [minSizeCallLogList] at hp; simp at hp
  | c :: cs =>
      rw [minSizeCallLogList] at hp
      rcases List.mem_append.mp hp with h | h
      · exact minSizeCallLog_containment c m p h
      · exact minSizeCallLogList_containment cs _ p h
termination_by sizeOf ws
decreasing_by
  all_goals simp_wf
  all_goals omega

end

mutual

theorem minSizeCallLog_fst_mem (w : WTree) (m : List (Nat × Vec2)) (v : WTree) :
    v ∈ (minSizeCallLog w m).map Prod.fst ↔ v ∈ preorder w := by
  rw [minSizeCallLog, preorder]
  simp only [List.map_append, List.mem_append, List.map_cons, List.map_nil,
    List.mem_singleton, List.mem_cons]
  rw [minSizeCallLogList_fst_mem w.children m v]
  tauto
termination_by sizeOf w
decreasing_by
  all_goals exact WTree.sizeOf_children_lt w

theorem minSizeCallLogList_fst_mem (ws : List WTree) (m : List (Nat × Vec2)) (v : WTree) :
    v ∈ (minSizeCallLogList ws m).map Prod.fst ↔ v ∈ preorderList ws := by
  match ws with
  | [] => rw [minSizeCallLogList, preorderList]; simp
  | c :: cs =>
      rw [minSizeCallLogList, preorderList]
      simp only [List.map_append, List.mem_append]
      rw [minSizeCallLog_fst_mem c m v, minSizeCallLogList_fst_mem cs _ v]
termination_by sizeOf ws
decreasing_by
  all_goals simp_wf
  all_goals omega

end

mutual

theorem computeRects_mono (w : WTree) (rect : Rect) (ms : List (Nat × Vec2))
    (m : List (Nat × Rect)) (k : Nat) (h : alContains k m = true) :
    alContains k (computeRects w rect ms m) = true := by
  rw [computeRects]
  apply computeRectsList_mono
  simp [h]
termination_by sizeOf w
decreasing_by
  all_goals exact WTree.sizeOf_children_lt w

theorem computeRectsList_mono (cr : Nat → Rect) (ws : List WTree)
    (ms : List (Nat × Vec2)) (i : Nat) (m : List (Nat × Rect)) (k : Nat)
    (h : alContains k m = true) :
    alContains k (computeRectsList cr ws ms i m) = true := by
  match ws with
  | [] => rw [computeRectsList]; exact h
  | c :: cs =>
      rw [computeRectsList]
      exact computeRectsList_mono cr cs ms (i + 1) _ k (computeRects_mono c (cr i) ms m k h)
termination_by sizeOf ws
decreasing_by
  all_goals simp_wf
  all_goals omega

end

mutual

theorem computeRects_covers (w : WTree) (rect : Rect) (ms : List (Nat × Vec2))
    (m : List (Nat × Rect)) : ∀ k ∈ subtreeIds w, alContains k (computeRects w rect ms m) = true := by
  intro k hk
  rw [subtreeIds] at hk
  rw [computeRects]
  rcases List.mem_cons.mp hk with h | h
  · subst h
    apply computeRectsList_mono
    simp
  · exact computeRectsList_covers (w.childRect rect ms) w.children ms 0 _ k h
termination_by sizeOf w
decreasing_by
  all_goals exact WTree.sizeOf_children_lt w

theorem computeRectsList_covers (cr : Nat → Rect) (ws : List WTree)
    (ms : List (Nat × Vec2)) (i : Nat) (m : List (Nat × Rect)) :
    ∀ k ∈ forestIds ws, alContains k (computeRectsList cr ws ms i m) = true := by
  intro k hk
  match ws with
  | [] => rw [forestIds] at hk; simp at hk
  | c :: cs =>
      rw [forestIds] at hk
      rw [computeRectsList]
      rcases List.mem_append.mp hk with h | h
      · exact computeRectsList_mono cr cs ms (i + 1) _ k (computeRects_covers c (cr i) ms m k h)
      · exact computeRectsList_covers cr cs ms (i + 1) _ k h
termination_by sizeOf ws
decreasing_by
  all_goals simp_wf
  all_goals omega

end

/-- **C2**: `Gui::draw` performs a two-pass layout: the bottom-up pass
starts from an empty map and recurses into all children before invoking a
widget's own `min_size`, so every `min_size` invocation (recorded by
`minSizeCallLog`, whose invocations are exactly the widgets of the tree)
already sees an entry for every descendant of its widget; the top-down
pass calls `compute_rects` on the root with the full surface rectangle,
and after it every widget of the tree has a rect in `widget_rects` (each
widget having inserted its own rect and recursed into its children). -/
theorem C2_two_pass_layout (g : Gui) (surfaceSize : Pt) (w : WTree) :
    ((Gui.draw g surfaceSize w).1.lastRender =
        some ⟨w, computeRects w ⟨⟨0, 0⟩, surfaceSize⟩ (computeWidgetMinSize w []) []⟩)
    ∧ (∀ p ∈ minSizeCallLog w [], ∀ d ∈ forestIds p.1.children, alContains d p.2 = true)
    ∧ (∀ v, v ∈ (minSizeCallLog w []).map Prod.fst ↔ v ∈ preorder w)
    ∧ (∀ k ∈ subtreeIds w, alContains k (computeWidgetMinSize w []) = true)
    ∧ (∀ k ∈ subtreeIds w,
        alContains k (computeRects w ⟨⟨0, 0⟩, surfaceSize⟩ (computeWidgetMinSize w []) [])
          = true) :=
  ⟨rfl, minSizeCallLog_containment w [], minSizeCallLog_fst_mem w [],
    computeWidgetMinSize_covers w [],
    computeRects_covers w ⟨⟨0, 0⟩, surfaceSize⟩ (computeWidgetMinSize w []) []⟩

/-- A concrete component widget (id 1) used to instantiate theorems. -/
def sampleChildA : WTree :=
  WTree.node 1 true (fun _ => ⟨5, 5⟩) (fun r _ => r) (fun r _ _ => r) []

/-- A concrete component widget (id 2) used to instantiate theorems. -/
def sampleChildB : WTree :=
  WTree.node 2 true (fun _ => ⟨5, 5⟩) (fun r _ => r) (fun r _ _ => r) []

/-- A small concrete widget tree used to instantiate the layout and
event-routing theorems: a plain container with two component children. -/
def sampleTree : WTree :=
  WTree.node 0 false (fun _ => ⟨10, 10⟩) (fun r _ => r) (fun r _ _ => r)
    [sampleChildA, sampleChildB]

theorem C2_two_pass_layout_witness :
    alContains 2
      (computeRects sampleTree ⟨⟨0, 0⟩, ⟨100, 100⟩⟩ (computeWidgetMinSize sampleTree []) [])
      = true :=
  (C2_two_pass_layout Gui.new ⟨100, 100⟩ sampleTree).2.2.2.2 2
    (by simp [sampleTree, sampleChildA, sampleChildB, subtreeIds, forestIds,
      WTree.id, WTree.children])

/-- Whether an event is a `KeyDown` whose keycode is `"Tab"` — the shape of
event that the focus-cycling block of `Gui::handle_events` consumes
(with or without shift). -/
def isTabKeyDown (e : Event) : Bool :=
  match e with
  | .keyDown k => k.code == "Tab"
  | _ => false

/-- The body of the `for event in events` loop of `Gui::handle_events`
(`src/gui/gui.rs` lines 333-374).  The loop keeps two focus variables:
the loop-local `active_component_id` (initialized from
`self.active_component`, used for dispatch by `widget_handle_event` and
mutated there by an accepted left `MouseDown`) and the struct field
`self.active_component`.  After dispatch, if the local changed, the
field is set to `(position in ordered_components, id)`
(`position(..).unwrap()` panics — an `error` here — when the id is
absent).  Then, if the field holds a component and the event is a Tab
`KeyDown`, the Tab arm cycles the field through `ordered_components`
(`%` by zero and out-of-range indexing panic) through a shadowing
`ref mut` binding — the loop-local is left untouched and goes stale —
and skips the event (`continue`); otherwise the event is appended to
`unhandled_events`.  Returns
`(loop-local, self.active_component, events_out, unhandled_events)`. -/
def handleOneEvent (localActive : Option Nat) (selfActive : Option (Int × Nat))
    (w : WTree) (rects : Nat → Rect) (ordered : List Nat)
    (out : List (Nat × List Event)) (unhandled : List Event) (e : Event) :
    Except String
      (Option Nat × Option (Int × Nat) × List (Nat × List Event) × List Event) :=
  let r := widgetHandleEvent w e rects out localActive
  let selfStep : Except String (Option (Int × Nat)) :=
    if r.2.1 ≠ localActive then
      match r.2.1 with
      | some id =>
          match List.findIdx? (fun x => x == id) ordered with
          | some i => .ok (some ((i : Int), id))
          | none => .error "position().unwrap() panicked"
      | none => .error "unwrap() panicked"
    else .ok selfActive
  match selfStep with
  | .error msg => .error msg
  | .ok self1 =>
      match self1, e with
      | some (idx, _id), .keyDown k =>
          if k.code == "Tab" && !k.shift then
            if (ordered.length : Int) = 0 then .error "remainder by zero"
            else
              let idx2 := (idx + 1).tmod (ordered.length : Int)
              if idx2 < 0 then .error "index out of bounds"
              else
                match ordered.get? idx2.toNat with
                | some id2 => .ok (r.2.1, some (idx2, id2), r.1, unhandled)
                | none => .error "index out of bounds"
          else if k.code == "Tab" && k.shift then
            if (ordered.length : Int) = 0 then .error "remainder by zero"
            else
              let idx2 := (idx - 1 + (ordered.length : Int)).tmod (ordered.length : Int)
              if idx2 < 0 then .error "index out of bounds"
              else
                match ordered.get? idx2.toNat with
                | some id2 => .ok (r.2.1, some (idx2, id2), r.1, unhandled)
                | none => .error "index out of bounds"
          else .ok (r.2.1, self1, r.1, unhandled ++ [e])
      | _, _ => .ok (r.2.1, self1, r.1, unhandled ++ [e])

/-- The `for event in events` loop of `Gui::handle_events`, threading the
loop-local focus, the stored focus, the per-component queues and the
unhandled list. -/
def handleEventsLoop (w : WTree) (rects : Nat → Rect) (ordered : List Nat)
    (localActive : Option Nat) (selfActive : Option (Int × Nat))
    (out : List (Nat × List Event)) (unhandled : List Event) :
    List Event →
      Except String
        (Option Nat × Option (Int × Nat) × List (Nat × List Event) × List Event)
  | [] => .ok (localActive, selfActive, out, unhandled)
  | e :: es =>
      match handleOneEvent localActive selfActive w rects ordered out unhandled e with
      | .error msg => .error msg
      | .ok (l, s, o, u) => handleEventsLoop w rects ordered l s o u es

/-- The `widget_rects` map of the last render as the total function used
by event dispatch; `widget_rects[&id]` presupposes the id was laid out
(which `Gui::draw` guarantees for every widget of the rendered tree), so
absent ids are mapped to a degenerate rect instead of a panic. -/
def rectsOf (m : List (Nat × Rect)) : Nat → Rect :=
  fun id => (alLookup id m).getD ⟨⟨0, 0⟩, ⟨0, 0⟩⟩

/-- `Gui::handle_events` (`src/gui/gui.rs` lines 323-380): with a
previous render, initialize the loop-local focus from
`self.active_component` (line 331), run the loop from empty queues,
store the final `self.active_component` back (the loop-local dies with
the loop), and return the per-component queues and the unhandled events;
with no previous render, return all events unhandled. -/
def Gui.handleEvents (g : Gui) (events : List Event) (ordered : List Nat) :
    Except String (Gui × List (Nat × List Event) × List Event) :=
  match g.lastRender with
  | some rg =>
      match handleEventsLoop rg.widget (rectsOf rg.widgetRects) ordered
          (g.activeComponent.map Prod.snd) g.activeComponent [] [] events with
      | .error msg => .error msg
      | .ok (_, s, o, u) => .ok ({ g with activeComponent := s }, o, u)
  | none => .ok (g, [], events)

theorem widgetHandleEvent_route_none (e : Event) (rects : Nat → Rect)
    (active : Option Nat) (w : WTree) (out : List (Nat × List Event))
    (hf : (preorder w).find? (receivesPred e rects active) = none) :
    widgetHandleEvent w e rects out active = (out, active, false) := by
  rw [widgetHandleEvent_route, hf]

theorem widgetHandleEvent_route_some (e : Event) (rects : Nat → Rect)
    (active : Option Nat) (w : WTree) (out : List (Nat × List Event)) (c : WTree)
    (hf : (preorder w).find? (receivesPred e rects active) = some c) :
    widgetHandleEvent w e rects out active =
      (pushEvent out c.id ((acceptEvent (active == some c.id) (rects c.id) e).getD e),
        activeAfterAccept c.id (rects c.id) e active, true) := by
  rw [widgetHandleEvent_route, hf]

theorem widgetHandleEvent_keyDown_active (w : WTree) (k : Key) (rects : Nat → Rect)
    (out : List (Nat × List Event)) (a : Option Nat) :
    (widgetHandleEvent w (.keyDown k) rects out a).2.1 = a := by
  rw [widgetHandleEvent_route]
  cases h : (preorder w).find? (receivesPred (.keyDown k) rects a) with
  | none => rfl
  | some c => rfl

theorem handleOneEvent_left_click_focuses (w : WTree) (rects : Nat → Rect) (ordered : List Nat)
    (out : List (Nat × List Event)) (unhandled : List Event)
    (localActive : Option Nat) (selfActive : Option (Int × Nat)) (pos : Pt) (c : WTree)
    (hsync : localActive = selfActive.map Prod.snd)
    (hf : (preorder w).find? (receivesPred (.mouseDown .left pos) rects localActive) = some c)
    (hmem : c.id ∈ ordered) :
    ∃ i out2 unh2,
      handleOneEvent localActive selfActive w rects ordered out unhandled
          (.mouseDown .left pos) =
        .ok (some c.id, some (i, c.id), out2, unh2) := by
  have hroute := widgetHandleEvent_route_some _ rects localActive w out c hf
  have hp := List.find?_some hf
  simp only [receivesPred, Bool.and_eq_true] at hp
  have hcont : (rects c.id).containsPoint pos = true := by
    rcases hp with ⟨_, hsome⟩
    by_contra hc
    simp [acceptEvent, hc] at hsome
  have hact : activeAfterAccept c.id (rects c.id) (.mouseDown .left pos) localActive
      = some c.id := by
    simp [activeAfterAccept, hcont]
  rw [hact] at hroute
  by_cases hold : localActive = some c.id
  · obtain ⟨⟨i, aid⟩, hpair⟩ : ∃ p, selfActive = some p := by
      cases selfActive with
      | none => rw [hsync] at hold; simp at hold
      | some p => exact ⟨p, rfl⟩
    subst hpair
    have hpid : aid = c.id := by
      rw [hsync] at hold
      simpa using hold
    subst hpid
    subst hold
    refine ⟨i,
      pushEvent out c.id
        ((acceptEvent (some c.id == some c.id) (rects c.id)
            (.mouseDown .left pos)).getD
          (.mouseDown .left pos)),
      unhandled ++ [.mouseDown .left pos], ?_⟩
    simp [handleOneEvent, hroute]
  · have hfind : (List.findIdx? (fun x => x == c.id) ordered).isSome := by
      rw [Option.isSome_iff_ne_none]
      intro hnone
      rw [List.findIdx?_eq_none_iff] at hnone
      have := hnone c.id hmem
      simp at this
    obtain ⟨i, hi⟩ := Option.isSome_iff_exists.mp hfind
    have hne : ¬(some c.id = localActive) := fun h => hold h.symm
    refine ⟨(i : Int),
      pushEvent out c.id
        ((acceptEvent (localActive == some c.id) (rects c.id)
            (.mouseDown .left pos)).getD
          (.mouseDown .left pos)),
      unhandled ++ [.mouseDown .left pos], ?_⟩
    simp [handleOneEvent, hroute, hne, hi]

theorem handleOneEvent_focus_persists (w : WTree) (rects : Nat → Rect) (ordered : List Nat)
    (out : List (Nat × List Event)) (unhandled : List Event)
    (localActive : Option Nat) (selfActive : Option (Int × Nat)) (e : Event)
    (hr : (widgetHandleEvent w e rects out localActive).2.1 = localActive)
    (ht : isTabKeyDown e = false) :
    handleOneEvent localActive selfActive w rects ordered out unhandled e =
      .ok (localActive, selfActive, (widgetHandleEvent w e rects out localActive).1,
        unhandled ++ [e]) := by
  simp only [handleOneEvent]
  rw [if_neg (by simp [hr])]
  cases selfActive with
  | none => cases e <;> simp [hr]
  | some p =>
      obtain ⟨idx, aid⟩ := p
      cases e with
      | keyDown k =>
          have hcode : (k.code == "Tab") = false := by simpa [isTabKeyDown] using ht
          simp [hcode, hr]
      | keyUp k => simp [hr]
      | charEntered c => simp [hr]
      | mouseDown b pos => simp [hr]
      | mouseUp b pos => simp [hr]
      | mouseMove pos mv => simp [hr]
      | mouseEnter => simp [hr]
      | mouseLeave => simp [hr]
      | focusGained => simp [hr]
      | focusLost => simp [hr]
      | windowResized sz => simp [hr]
      | pointerLocked => simp [hr]
      | pointerUnlocked => simp [hr]
      | scroll a => simp [hr]

theorem handleOneEvent_tab_forward (w : WTree) (rects : Nat → Rect) (ordered : List Nat)
    (out : List (Nat × List Event)) (unhandled : List Event)
    (localActive : Option Nat) (idx : Int) (aid : Nat) (k : Key)
    (hidx : 0 ≤ idx) (hcode : k.code = "Tab") (hshift : k.shift = false)
    (hord : ordered ≠ []) :
    ∃ id2, ordered.get? ((idx + 1).tmod (ordered.length : Int)).toNat = some id2 ∧
      handleOneEvent localActive (some (idx, aid)) w rects ordered out unhandled
          (.keyDown k) =
        .ok (localActive, some ((idx + 1).tmod (ordered.length : Int), id2),
          (widgetHandleEvent w (.keyDown k) rects out localActive).1, unhandled) := by
  have hkeep := widgetHandleEvent_keyDown_active w k rects out localActive
  have hlen : 0 < ordered.length := List.length_pos.mpr hord
  have hnonneg : 0 ≤ (idx + 1).tmod (ordered.length : Int) :=
    Int.tmod_nonneg _ (by omega)
  have hlt : (idx + 1).tmod (ordered.length : Int) < (ordered.length : Int) :=
    Int.tmod_lt_of_pos _ (by exact_mod_cast hlen)
  have htoNat : ((idx + 1).tmod (ordered.length : Int)).toNat < ordered.length := by omega
  obtain ⟨id2, hid2⟩ :
      ∃ id2, ordered.get? ((idx + 1).tmod (ordered.length : Int)).toNat = some id2 :=
    ⟨_, List.get?_eq_get htoNat⟩
  refine ⟨id2, hid2, ?_⟩
  simp only [handleOneEvent]
  rw [if_neg (by simp [hkeep])]
  have hc1 : (k.code == "Tab" && !k.shift) = true := by simp [hcode, hshift]
  have hz : ¬((ordered.length : Int) = 0) := by exact_mod_cast Nat.pos_iff_ne_zero.mp hlen
  simp [hc1, hz, not_lt.mpr hnonneg, hid2, hkeep]
  rw [← List.get?_eq_getElem?, hid2]

theorem handleOneEvent_tab_backward (w : WTree) (rects : Nat → Rect) (ordered : List Nat)
    (out : List (Nat × List Event)) (unhandled : List Event)
    (localActive : Option Nat) (idx : Int) (aid : Nat) (k : Key)
    (hidx : 0 ≤ idx) (hcode : k.code = "Tab") (hshift : k.shift = true)
    (hord : ordered ≠ []) :
    ∃ id2,
      ordered.get? ((idx - 1 + (ordered.length : Int)).tmod (ordered.length : Int)).toNat
        = some id2 ∧
      handleOneEvent localActive (some (idx, aid)) w rects ordered out unhandled
          (.keyDown k) =
        .ok (localActive,
          some ((idx - 1 + (ordered.length : Int)).tmod (ordered.length : Int), id2),
          (widgetHandleEvent w (.keyDown k) rects out localActive).1, unhandled) := by
  have hkeep := widgetHandleEvent_keyDown_active w k rects out localActive
  have hlen : 0 < ordered.length := List.length_pos.mpr hord
  have hlen2 : (0 : Int) < (ordered.length : Int) := by exact_mod_cast hlen
  have hnonneg : 0 ≤ (idx - 1 + (ordered.length : Int)).tmod (ordered.length : Int) :=
    Int.tmod_nonneg _ (by omega)
  have hlt : (idx - 1 + (ordered.length : Int)).tmod (ordered.length : Int)
      < (ordered.length : Int) := Int.tmod_lt_of_pos _ hlen2
  have htoNat :
      ((idx - 1 + (ordered.length : Int)).tmod (ordered.length : Int)).toNat
        < ordered.length := by omega
  obtain ⟨id2, hid2⟩ :
      ∃ id2,
        ordered.get? ((idx - 1 + (ordered.length : Int)).tmod (ordered.length : Int)).toNat
          = some id2 :=
    ⟨_, List.get?_eq_get htoNat⟩
  refine ⟨id2, hid2, ?_⟩
  simp only [handleOneEvent]
  rw [if_neg (by simp [hkeep])]
  have hc1 : (k.code == "Tab" && !k.shift) = false := by simp [hcode, hshift]
  have hc2 : (k.code == "Tab" && k.shift) = true := by simp [hcode, hshift]
  have hz : ¬((ordered.length : Int) = 0) := by omega
  simp [hc1, hc2, hz, not_lt.mpr hnonneg, hid2, hkeep]
  rw [← List.get?_eq_getElem?, hid2]

theorem handleOneEvent_tab_no_active (w : WTree) (rects : Nat → Rect) (ordered : List Nat)
    (out : List (Nat × List Event)) (unhandled : List Event)
    (localActive : Option Nat) (k : Key) (hcode : k.code = "Tab") :
    handleOneEvent localActive none w rects ordered out unhandled (.keyDown k) =
      .ok (localActive, none, (widgetHandleEvent w (.keyDown k) rects out localActive).1,
        unhandled ++ [.keyDown k]) := by
  have hkeep := widgetHandleEvent_keyDown_active w k rects out localActive
  simp only [handleOneEvent]
  rw [if_neg (by simp [hkeep])]
  simp [hkeep]
/-- A Tab key press without modifiers. -/
def tabKey : Key :=
  { code := "Tab", shift := false, ctrl := false, alt := false, isModifier := false }

/-- Concrete laid-out rects for `sampleTree`: the container spans both
component children side by side. -/
def sampleRects : List (Nat × Rect) :=
  [(0, ⟨⟨0, 0⟩, ⟨20, 10⟩⟩), (1, ⟨⟨0, 0⟩, ⟨10, 10⟩⟩), (2, ⟨⟨10, 0⟩, ⟨20, 10⟩⟩)]

/-- Counterexample to **C5** as stated: `handle_events` keeps the
loop-local dispatch focus (`active_component_id`, `gui.rs` line 331)
separate from the stored focus (`self.active_component`), and the Tab
arm (lines 352-371) updates only the stored focus through a shadowing
`ref mut` binding.  After a Tab in the same call, a left `MouseDown`
delivered to the previously-focused component (id 1, whose rect
contains the click) leaves the stale loop-local unchanged, so the
"changed" test at line 343 fails and the stored focus silently stays on
the Tab target (id 2): the clicked component does not become the active
component. -/
theorem C5_counterexample :
    (rectsOf sampleRects sampleChildA.id).containsPoint ⟨2, 3⟩ = true
    ∧ Gui.handleEvents
        { activeComponent := some (0, 1), lastRender := some ⟨sampleTree, sampleRects⟩ }
        [.keyDown tabKey, .mouseDown .left ⟨2, 3⟩] [1, 2]
      = .ok
          ({ activeComponent := some (1, 2),
             lastRender := some ⟨sampleTree, sampleRects⟩ },
            [(1, [.keyDown tabKey, .mouseDown .left ⟨2, 3⟩]), (1, [.keyDown tabKey])],
            [.mouseDown .left ⟨2, 3⟩])
    ∧ sampleChildA.id ≠ 2 := by
  refine ⟨by decide, ?_, by decide⟩
  simp [Gui.handleEvents, handleEventsLoop, handleOneEvent, widgetHandleEvent,
    widgetHandleEventList, rectsOf, sampleRects, sampleTree, sampleChildA, sampleChildB,
    tabKey, acceptEvent, activeAfterAccept, isTabKeyDown, Rect.containsPoint, pushEvent,
    alInsert, alLookup, Pt.sub, WTree.id, WTree.isComp, WTree.children, List.findIdx?,
    Int.tmod]

/-- **C5** (amended): focus is tracked across frames by two variables —
the loop-local dispatch focus and the stored `self.active_component` —
and the claim holds with one exception forced by their
desynchronization: a left-button `MouseDown` delivered to a component
makes it the active component provided the loop-local focus agrees with
the stored focus (as it does at the start of every `handle_events` call;
a preceding Tab in the same call breaks the agreement, see the
counterexample); an event that does not refocus (and is not a Tab
`KeyDown`) leaves both focus variables untouched, so the active
component persists across calls until changed; with a stored focused
component, Tab without shift advances the stored focus to the next entry
of `ordered_components` modulo its length, and Tab with shift to the
previous entry with the same wrap-around (the loop-local is left as it
was); with no stored focus a Tab `KeyDown` performs no focus change. -/
theorem C5_focus_tracking (w : WTree) (rects : Nat → Rect) (ordered : List Nat)
    (out : List (Nat × List Event)) (unhandled : List Event) :
    (∀ (localActive : Option Nat) (selfActive : Option (Int × Nat)) (pos : Pt) (c : WTree),
      localActive = selfActive.map Prod.snd →
      (preorder w).find? (receivesPred (.mouseDown .left pos) rects localActive)
          = some c →
      c.id ∈ ordered →
      ∃ i out2 unh2,
        handleOneEvent localActive selfActive w rects ordered out unhandled
            (.mouseDown .left pos) =
          .ok (some c.id, some (i, c.id), out2, unh2))
    ∧ (∀ (localActive : Option Nat) (selfActive : Option (Int × Nat)) (e : Event),
        (widgetHandleEvent w e rects out localActive).2.1 = localActive →
        isTabKeyDown e = false →
        handleOneEvent localActive selfActive w rects ordered out unhandled e =
          .ok (localActive, selfActive,
            (widgetHandleEvent w e rects out localActive).1, unhandled ++ [e]))
    ∧ (∀ (localActive : Option Nat) (idx : Int) (aid : Nat) (k : Key),
        0 ≤ idx → k.code = "Tab" → k.shift = false → ordered ≠ [] →
        ∃ id2, ordered.get? ((idx + 1).tmod (ordered.length : Int)).toNat = some id2 ∧
          handleOneEvent localActive (some (idx, aid)) w rects ordered out unhandled
              (.keyDown k) =
            .ok (localActive, some ((idx + 1).tmod (ordered.length : Int), id2),
              (widgetHandleEvent w (.keyDown k) rects out localActive).1, unhandled))
    ∧ (∀ (localActive : Option Nat) (idx : Int) (aid : Nat) (k : Key),
        0 ≤ idx → k.code = "Tab" → k.shift = true → ordered ≠ [] →
        ∃ id2,
          ordered.get?
              ((idx - 1 + (ordered.length : Int)).tmod (ordered.length : Int)).toNat
            = some id2 ∧
          handleOneEvent localActive (some (idx, aid)) w rects ordered out unhandled
              (.keyDown k) =
            .ok (localActive,
              some ((idx - 1 + (ordered.length : Int)).tmod (ordered.length : Int), id2),
              (widgetHandleEvent w (.keyDown k) rects out localActive).1, unhandled))
    ∧ (∀ (localActive : Option Nat) (k : Key), k.code = "Tab" →
        handleOneEvent localActive none w rects ordered out unhandled (.keyDown k) =
          .ok (localActive, none,
            (widgetHandleEvent w (.keyDown k) rects out localActive).1,
            unhandled ++ [.keyDown k])) :=
  ⟨fun localActive selfActive pos c hsync hf hmem =>
      handleOneEvent_left_click_focuses w rects ordered out unhandled localActive
        selfActive pos c hsync hf hmem,
    fun localActive selfActive e hr ht =>
      handleOneEvent_focus_persists w rects ordered out unhandled localActive
        selfActive e hr ht,
    fun localActive idx aid k hidx hcode hshift hord =>
      handleOneEvent_tab_forward w rects ordered out unhandled localActive idx aid k
        hidx hcode hshift hord,
    fun localActive idx aid k hidx hcode hshift hord =>
      handleOneEvent_tab_backward w rects ordered out unhandled localActive idx aid k
        hidx hcode hshift hord,
    fun localActive k hcode =>
      handleOneEvent_tab_no_active w rects ordered out unhandled localActive k hcode⟩

theorem C5_focus_tracking_witness :
    ∃ id2, [1, 2].get? (((0 : Int) + 1).tmod (([1, 2] : List Nat).length : Int)).toNat
        = some id2 ∧
      handleOneEvent (some 1) (some (0, 1)) sampleTree (fun _ => ⟨⟨0, 0⟩, ⟨10, 10⟩⟩)
          [1, 2] [] [] (.keyDown tabKey) =
        .ok (some 1, some (((0 : Int) + 1).tmod (([1, 2] : List Nat).length : Int), id2),
          (widgetHandleEvent sampleTree (.keyDown tabKey) (fun _ => ⟨⟨0, 0⟩, ⟨10, 10⟩⟩) []
            (some 1)).1, []) :=
  (C5_focus_tracking sampleTree (fun _ => ⟨⟨0, 0⟩, ⟨10, 10⟩⟩) [1, 2] [] []).2.2.1
    (some 1) 0 1 tabKey (by decide) rfl rfl (by decide)

theorem handleOneEvent_ok_shape (w : WTree) (rects : Nat → Rect) (ordered : List Nat)
    (out : List (Nat × List Event)) (unh : List Event)
    (localActive : Option Nat) (selfActive : Option (Int × Nat)) (e : Event)
    (l2 : Option Nat) (s2 : Option (Int × Nat)) (out2 : List (Nat × List Event))
    (unh2 : List Event)
    (h : handleOneEvent localActive selfActive w rects ordered out unh e
        = .ok (l2, s2, out2, unh2)) :
    out2 = (widgetHandleEvent w e rects out localActive).1 ∧
      ((unh2 = unh ∧ isTabKeyDown e = true ∧ s2.isSome = true) ∨
        (unh2 = unh ++ [e] ∧ (isTabKeyDown e = true → s2.isSome = false))) := by
  simp only [handleOneEvent] at h
  split at h
  next msg heq => exact absurd h (by simp)
  next self1 heq =>
    split at h
    next idx aid k =>
      split at h
      · split at h
        · exact absurd h (by simp)
        · split at h
          · exact absurd h (by simp)
          · split at h
            next id2 hid2 =>
              simp only [Except.ok.injEq, Prod.mk.injEq] at h
              obtain ⟨hl, hs, ho, hu⟩ := h
              exact ⟨ho.symm,
                Or.inl ⟨hu.symm, by simp only [isTabKeyDown]; simp_all, by rw [← hs]; rfl⟩⟩
            next hid2 => exact absurd h (by simp)
      · split at h
        · split at h
          · exact absurd h (by simp)
          · split at h
            · exact absurd h (by simp)
            · split at h
              next id2 hid2 =>
                simp only [Except.ok.injEq, Prod.mk.injEq] at h
                obtain ⟨hl, hs, ho, hu⟩ := h
                exact ⟨ho.symm,
                  Or.inl ⟨hu.symm, by simp only [isTabKeyDown]; simp_all, by rw [← hs]; rfl⟩⟩
              next hid2 => exact absurd h (by simp)
        · simp only [Except.ok.injEq, Prod.mk.injEq] at h
          obtain ⟨hl, hs, ho, hu⟩ := h
          refine ⟨ho.symm, Or.inr ⟨hu.symm, ?_⟩⟩
          intro htab
          simp [isTabKeyDown] at htab
          simp_all
    next hcatch =>
      simp only [Except.ok.injEq, Prod.mk.injEq] at h
      obtain ⟨hl, hs, ho, hu⟩ := h
      refine ⟨ho.symm, Or.inr ⟨hu.symm, ?_⟩⟩
      intro htab
      cases e with
      | keyDown k =>
          cases self1 with
          | none => rw [← hs]; rfl
          | some p => exact (hcatch p.1 p.2 k (by rw [Prod.mk.eta]) rfl).elim
      | keyUp k => simp [isTabKeyDown] at htab
      | charEntered c => simp [isTabKeyDown] at htab
      | mouseDown b pos => simp [isTabKeyDown] at htab
      | mouseUp b pos => simp [isTabKeyDown] at htab
      | mouseMove pos mv => simp [isTabKeyDown] at htab
      | mouseEnter => simp [isTabKeyDown] at htab
      | mouseLeave => simp [isTabKeyDown] at htab
      | focusGained => simp [isTabKeyDown] at htab
      | focusLost => simp [isTabKeyDown] at htab
      | windowResized sz => simp [isTabKeyDown] at htab
      | pointerLocked => simp [isTabKeyDown] at htab
      | pointerUnlocked => simp [isTabKeyDown] at htab
      | scroll a => simp [isTabKeyDown] at htab

theorem handleEventsLoop_unhandled (w : WTree) (rects : Nat → Rect) (ordered : List Nat) :
    ∀ (es : List Event) (localActive : Option Nat) (selfActive : Option (Int × Nat))
      (out : List (Nat × List Event)) (unh : List Event)
      (lf : Option Nat) (sf : Option (Int × Nat)) (outf : List (Nat × List Event))
      (unhf : List Event),
      handleEventsLoop w rects ordered localActive selfActive out unh es
          = .ok (lf, sf, outf, unhf) →
      ∃ l, unhf = unh ++ l ∧ (∀ x ∈ es, isTabKeyDown x = false → x ∈ l)
        ∧ (∀ x ∈ l, x ∈ es) := by
  intro es
  induction es with
  | nil =>
      intro localActive selfActive out unh lf sf outf unhf h
      rw [handleEventsLoop] at h
      simp only [Except.ok.injEq, Prod.mk.injEq] at h
      exact ⟨[], by simp [h.2.2.2], by simp, by simp⟩
  | cons e es ih =>
      intro localActive selfActive out unh lf sf outf unhf h
      rw [handleEventsLoop] at h
      cases hstep : handleOneEvent localActive selfActive w rects ordered out unh e with
      | error msg => rw [hstep] at h; exact absurd h (by simp)
      | ok t =>
          obtain ⟨l1, s1, o1, u1⟩ := t
          rw [hstep] at h
          obtain ⟨l2, hl2, hmem2, hsub2⟩ := ih l1 s1 o1 u1 lf sf outf unhf h
          have hshape := handleOneEvent_ok_shape w rects ordered out unh localActive
            selfActive e l1 s1 o1 u1 hstep
          rcases hshape.2 with ⟨hu, htab, _⟩ | ⟨hu, _⟩
          · refine ⟨l2, by rw [hl2, hu], ?_, ?_⟩
            · intro x hx hxtab
              rcases List.mem_cons.mp hx with rfl | hx2
              · rw [htab] at hxtab; cases hxtab
              · exact hmem2 x hx2 hxtab
            · intro x hx
              exact List.mem_cons_of_mem e (hsub2 x hx)
          · refine ⟨e :: l2, by rw [hl2, hu]; simp, ?_, ?_⟩
            · intro x hx hxtab
              rcases List.mem_cons.mp hx with rfl | hx2
              · exact List.mem_cons_self _ _
              · exact List.mem_cons_of_mem e (hmem2 x hx2 hxtab)
            · intro x hx
              rcases List.mem_cons.mp hx with rfl | hx2
              · exact List.mem_cons_self _ _
              · exact List.mem_cons_of_mem e (hsub2 x hx2)

/-- **C6**: every event except a Tab `KeyDown` consumed for focus cycling
is appended to the returned `unhandled_events` list — including events
that were also delivered to a component, so the unhandled list is not
disjoint from the events distributed to components, even though
`unhandled_events` is documented as the events not handled by any
`Component`. -/
theorem C6_unhandled_overlap (w : WTree) (rects : Nat → Rect) (ordered : List Nat) :
    (∀ (localActive : Option Nat) (selfActive : Option (Int × Nat))
        (out : List (Nat × List Event)) (unh : List Event) (e : Event)
        (l2 : Option Nat) (s2 : Option (Int × Nat)) (out2 : List (Nat × List Event))
        (unh2 : List Event),
      handleOneEvent localActive selfActive w rects ordered out unh e
          = .ok (l2, s2, out2, unh2) →
      out2 = (widgetHandleEvent w e rects out localActive).1 ∧
        ((unh2 = unh ∧ isTabKeyDown e = true ∧ s2.isSome = true) ∨
          (unh2 = unh ++ [e] ∧ (isTabKeyDown e = true → s2.isSome = false))))
    ∧ (∀ (localActive : Option Nat) (selfActive : Option (Int × Nat))
        (out : List (Nat × List Event)) (unh : List Event) (e : Event)
        (l2 : Option Nat) (s2 : Option (Int × Nat)) (out2 : List (Nat × List Event))
        (unh2 : List Event) (c : WTree) (e2 : Event),
        handleOneEvent localActive selfActive w rects ordered out unh e
            = .ok (l2, s2, out2, unh2) →
        (preorder w).find? (receivesPred e rects localActive) = some c →
        acceptEvent (localActive == some c.id) (rects c.id) e = some e2 →
        isTabKeyDown e = false →
        alLookup c.id out2 = some (((alLookup c.id out).getD []) ++ [e2]) ∧ e ∈ unh2)
    ∧ (∀ (es : List Event) (localActive : Option Nat) (selfActive : Option (Int × Nat))
        (out : List (Nat × List Event)) (unh : List Event)
        (lf : Option Nat) (sf : Option (Int × Nat)) (outf : List (Nat × List Event))
        (unhf : List Event),
        handleEventsLoop w rects ordered localActive selfActive out unh es
            = .ok (lf, sf, outf, unhf) →
        ∃ l, unhf = unh ++ l ∧ (∀ x ∈ es, isTabKeyDown x = false → x ∈ l)
          ∧ (∀ x ∈ l, x ∈ es))
    ∧ (∀ (g : Gui) (rg : RenderedGui) (events : List Event) (g2 : Gui)
        (o2 : List (Nat × List Event)) (u2 : List Event),
        g.lastRender = some rg →
        Gui.handleEvents g events ordered = .ok (g2, o2, u2) →
        ∃ l, u2 = l ∧ (∀ x ∈ events, isTabKeyDown x = false → x ∈ l)
          ∧ (∀ x ∈ l, x ∈ events)) := by
  refine ⟨fun localActive selfActive out unh e l2 s2 out2 unh2 h =>
      handleOneEvent_ok_shape w rects ordered out unh localActive selfActive e
        l2 s2 out2 unh2 h,
    ?_, fun es localActive selfActive out unh lf sf outf unhf h =>
      handleEventsLoop_unhandled w rects ordered es localActive selfActive out unh
        lf sf outf unhf h, ?_⟩
  case refine_2 =>
    intro g rg events g2 o2 u2 hlr hh
    simp only [Gui.handleEvents, hlr] at hh
    cases hloop : handleEventsLoop rg.widget (rectsOf rg.widgetRects) ordered
        (g.activeComponent.map Prod.snd) g.activeComponent [] [] events with
    | error m => rw [hloop] at hh; exact absurd hh (by simp)
    | ok t =>
        obtain ⟨l1, s1, o1, u1⟩ := t
        rw [hloop] at hh
        simp only [Except.ok.injEq, Prod.mk.injEq] at hh
        obtain ⟨l, hl, hmem, hsub⟩ := handleEventsLoop_unhandled rg.widget
          (rectsOf rg.widgetRects) ordered events (g.activeComponent.map Prod.snd)
          g.activeComponent [] [] l1 s1 o1 u1 hloop
        refine ⟨l, ?_, hmem, hsub⟩
        rw [← hh.2.2, hl]
        simp
  intro localActive selfActive out unh e l2 s2 out2 unh2 c e2 h hf he2 htab
  have hshape := handleOneEvent_ok_shape w rects ordered out unh localActive selfActive e
    l2 s2 out2 unh2 h
  have hroute := widgetHandleEvent_route_some e rects localActive w out c hf
  constructor
  · rw [hshape.1, hroute]
    simp [pushEvent, he2]
  · rcases hshape.2 with ⟨_, htab2, _⟩ | ⟨hu, _⟩
    · rw [htab] at htab2; cases htab2
    · rw [hu]; simp

theorem C6_unhandled_overlap_witness :
    alLookup 1 [(1, [Event.mouseUp MouseButton.left ⟨2, 3⟩])]
        = some (((alLookup 1 ([] : List (Nat × List Event))).getD [])
          ++ [Event.mouseUp MouseButton.left ⟨2, 3⟩])
      ∧ Event.mouseUp MouseButton.left ⟨2, 3⟩ ∈ [Event.mouseUp MouseButton.left ⟨2, 3⟩] :=
  (C6_unhandled_overlap sampleTree (fun _ => ⟨⟨0, 0⟩, ⟨10, 10⟩⟩) [1, 2]).2.1
    none none [] [] (Event.mouseUp MouseButton.left ⟨2, 3⟩) none none
    [(1, [Event.mouseUp MouseButton.left ⟨2, 3⟩])] [Event.mouseUp MouseButton.left ⟨2, 3⟩]
    sampleChildA (Event.mouseUp MouseButton.left ⟨2, 3⟩)
    (by simp [handleOneEvent, widgetHandleEvent, widgetHandleEventList, sampleTree,
      sampleChildA, sampleChildB, WTree.isComp, WTree.id, WTree.children, acceptEvent,
      Rect.containsPoint, Pt.sub, pushEvent, alInsert, activeAfterAccept])
    (by simp [preorder, preorderList, sampleTree, sampleChildA, sampleChildB,
      receivesPred, acceptEvent, Rect.containsPoint, WTree.isComp, WTree.id,
      WTree.children, List.find?])
    (by simp [acceptEvent, Rect.containsPoint, Pt.sub, sampleChildA, WTree.id])
    rfl

/-- `FxHashSet::insert`: add the element if not already present. -/
def setInsert {α : Type} [DecidableEq α] (x : α) (s : List α) : List α :=
  if x ∈ s then s else x :: s

/-- `FxHashSet::remove`: drop the element. -/
def setRemove {α : Type} [DecidableEq α] (x : α) (s : List α) : List α :=
  s.filter (fun y => y ≠ x)

/-- `struct EventState` (`src/gui/main_loop.rs` lines 31-44). -/
structure EventState where
  pressedKeys : List String
  pressedMouseButtons : List MouseButton
  cursorPos : Option Pt
  prevCursorPos : Option Pt
  pointerLocked : Bool
deriving DecidableEq

/-- The per-event `EventState` update of the desktop main loop
(`src/gui/main_loop.rs` lines 373-408): `KeyDown`/`KeyUp` insert/remove
the keycode, `FocusLost` clears both pressed sets, `MouseDown`/`MouseUp`
insert/remove the button, `MouseLeave` clears the pressed buttons,
`PointerLocked`/`PointerUnlocked` set the flag, and `MouseMove` saves the
old cursor position and records the new one — unless the window's
framebuffer size differs from the surface's recorded size
(`windowSizeEqSurface = false`), in which case the `MouseMove` is
discarded (`continue`) with no state change. -/
def eventStateStep (st : EventState) (windowSizeEqSurface : Bool) (e : Event) : EventState :=
  match e with
  | .keyDown k => { st with pressedKeys := setInsert k.code st.pressedKeys }
  | .keyUp k => { st with pressedKeys := setRemove k.code st.pressedKeys }
  | .focusLost => { st with pressedKeys := [], pressedMouseButtons := [] }
  | .mouseDown b _ => { st with pressedMouseButtons := setInsert b st.pressedMouseButtons }
  | .mouseUp b _ => { st with pressedMouseButtons := setRemove b st.pressedMouseButtons }
  | .mouseLeave => { st with pressedMouseButtons := [] }
  | .pointerLocked => { st with pointerLocked := true }
  | .pointerUnlocked => { st with pointerLocked := false }
  | .mouseMove pos _ =>
      if windowSizeEqSurface then
        { st with prevCursorPos := st.cursorPos, cursorPos := some pos }
      else st
  | _ => st

/-- Counterexample to **C8** as stated: a `MouseMove` translated from the
window system while the window size differs from the surface's recorded
size is discarded by the main loop (`continue`), so it does not set
`cursor_pos` to the new position. -/
theorem C8_counterexample :
    (eventStateStep
        { pressedKeys := [], pressedMouseButtons := [], cursorPos := some ⟨1, 1⟩,
          prevCursorPos := none, pointerLocked := false }
        false (.mouseMove ⟨5, 5⟩ ⟨4, 4⟩)).cursorPos ≠ some (⟨5, 5⟩ : Pt) := by
  decide

/-- **C8** (amended): the main loop maintains `EventState` as a state
machine over the translated event stream: `KeyDown` inserts the keycode
into `pressed_keys` and `KeyUp` removes it; `MouseDown` inserts the
button into `pressed_mouse_buttons` and `MouseUp` removes it;
`FocusLost` clears both sets; `MouseLeave` clears the pressed buttons;
`MouseMove` sets `cursor_pos` to the new position after saving the old
one in `prev_cursor_pos`, except that a `MouseMove` received while the
window size differs from the surface's recorded size is discarded with
no state change; consequently, immediately after `FocusLost` no key and
no mouse button is recorded as pressed. -/
theorem C8_event_state_machine (st : EventState) (m : Bool) :
    (∀ k, eventStateStep st m (.keyDown k)
        = { st with pressedKeys := setInsert k.code st.pressedKeys })
    ∧ (∀ k, eventStateStep st m (.keyUp k)
        = { st with pressedKeys := setRemove k.code st.pressedKeys })
    ∧ (∀ b pos, eventStateStep st m (.mouseDown b pos)
        = { st with pressedMouseButtons := setInsert b st.pressedMouseButtons })
    ∧ (∀ b pos, eventStateStep st m (.mouseUp b pos)
        = { st with pressedMouseButtons := setRemove b st.pressedMouseButtons })
    ∧ (eventStateStep st m .focusLost
        = { st with pressedKeys := [], pressedMouseButtons := [] })
    ∧ (eventStateStep st m .mouseLeave = { st with pressedMouseButtons := [] })
    ∧ (∀ pos mv, eventStateStep st true (.mouseMove pos mv)
        = { st with prevCursorPos := st.cursorPos, cursorPos := some pos })
    ∧ (∀ pos mv, eventStateStep st false (.mouseMove pos mv) = st)
    ∧ ((eventStateStep st m .focusLost).pressedKeys = []
        ∧ (eventStateStep st m .focusLost).pressedMouseButtons = []) :=
  ⟨fun _ => rfl, fun _ => rfl, fun _ _ => rfl, fun _ _ => rfl, rfl, rfl,
    fun _ _ => rfl, fun _ _ => rfl, rfl, rfl⟩

/-- Association-list lookup for arbitrary key types (used for the
char-keyed glyph map and the pair-keyed kerning map of `FontInner`). -/
def assocLookup {κ β : Type} [DecidableEq κ] (k : κ) : List (κ × β) → Option β
  | [] => none
  | (k', v) :: rest => if k' = k then some v else assocLookup k rest

/-- `struct CachedGlyphDisplay` (`src/gui/text.rs` lines 199-205). -/
structure CachedGlyphDisplay where
  loc : Int × Int
  size : Int × Int
  left : Int
  top : Int
deriving DecidableEq

/-- `struct CachedGlyph` (`src/gui/text.rs` lines 193-197); `advance_x`
is an `f32`, modelled as `ℚ`. -/
structure CachedGlyph where
  display : Option CachedGlyphDisplay
  advance_x : ℚ
deriving DecidableEq

/-- The font-level inputs of the glyph cache, abstracting the rusttype
rasterizer: per-char advance (`h_metrics().advance_width`), pair kerning
(`font.pair_kerning`), whitespace test (`char::is_whitespace`), and per
non-whitespace char the rendered bitmap's size (`texture.size()`, a
`u32` pair) and bounding-box corner (`left`, `top`). -/
structure FontParams where
  advX : Char → ℚ
  kern : Char → Char → ℚ
  isWs : Char → Bool
  glyphW : Char → Nat
  glyphH : Char → Nat
  glyphLeft : Char → Int
  glyphTop : Char → Int

/-- The mutable state of `FontInner` relevant to the cache
(`src/gui/text.rs` lines 162-177): the glyph map, the kerning map, the
packing cursor, and `advance_y` (an `i32`). -/
structure FontState where
  advance_y : Int
  glyphs : List (Char × CachedGlyph)
  kerning : List ((Char × Char) × ℚ)
  cur_x : Nat
  cur_y : Nat

/-- The atlas texture is created 1024x1024 in `FontInner::new`
(`Framebuffer::new_with_texture(context, vec2(1024, 1024), ...)`). -/
def atlasSize : Nat := 1024

/-- The `as u32` cast of an `i32` value (two's-complement reinterpret),
used for `self.advance_y as u32` in `cache_glyph`. -/
def i32AsU32 (v : Int) : Nat :=
  (v % 4294967296).toNat

/-- `FontInner::cache_glyph` (`src/gui/text.rs` lines 301-369): already
cached chars return immediately; a whitespace char (whose `load_glyph`
produces no display) is cached with no display; otherwise the glyph is
packed first-fit into the current row at `(cur_x, cur_y)` when
`cur_x + width < atlas width`, and at the start of the next row
`(0, cur_y + advance_y as u32 + 1)` otherwise; if the chosen row start
is at or below the bottom of the atlas the code panics with
"Font cache full"; after placement `cur_x = x + width + 1` and
`cur_y = y`.  (The mesh drawn into the atlas framebuffer renders pixels
only and is not modelled.) -/
def cacheGlyph (p : FontParams) (f : FontState) (c : Char) : Except String FontState :=
  if (assocLookup c f.glyphs).isSome then .ok f
  else if p.isWs c then
    .ok { f with glyphs := (c, ⟨none, p.advX c⟩) :: f.glyphs }
  else
    let wgt := p.glyphW c
    let lineOutOfSpace := decide (f.cur_x + wgt ≥ atlasSize)
    let xy := if lineOutOfSpace then (0, f.cur_y + i32AsU32 f.advance_y + 1)
      else (f.cur_x, f.cur_y)
    if xy.2 ≥ atlasSize then .error "Font cache full"
    else
      .ok { f with
        cur_x := xy.1 + wgt + 1,
        cur_y := xy.2,
        glyphs := (c,
          ⟨some ⟨((xy.1 : Int), (xy.2 : Int)), ((wgt : Int), (p.glyphH c : Int)),
            p.glyphLeft c, p.glyphTop c⟩, p.advX c⟩) :: f.glyphs }

/-- **C3**: `cache_glyph` packs glyphs first-fit into the 1024x1024
atlas: an already-cached char is never rasterized or packed again (the
state is untouched); a new non-whitespace glyph goes at `(cur_x, cur_y)`
when `cur_x + width` is strictly below the atlas width and at
`(0, cur_y + advance_y + 1)` otherwise; after placement `cur_x`
becomes `x + width + 1` and `cur_y` becomes `y`; and when the chosen `y`
reaches the atlas height the code panics with "Font cache full". -/
theorem C3_glyph_packing (p : FontParams) (f : FontState) (c : Char) :
    ((assocLookup c f.glyphs).isSome = true → cacheGlyph p f c = .ok f)
    ∧ ((assocLookup c f.glyphs).isSome = false → p.isWs c = false →
        f.cur_x + p.glyphW c < atlasSize → f.cur_y < atlasSize →
        cacheGlyph p f c = .ok { f with
          cur_x := f.cur_x + p.glyphW c + 1,
          cur_y := f.cur_y,
          glyphs := (c,
            ⟨some ⟨((f.cur_x : Int), (f.cur_y : Int)),
              ((p.glyphW c : Int), (p.glyphH c : Int)),
              p.glyphLeft c, p.glyphTop c⟩, p.advX c⟩) :: f.glyphs })
    ∧ ((assocLookup c f.glyphs).isSome = false → p.isWs c = false →
        atlasSize ≤ f.cur_x + p.glyphW c →
        f.cur_y + i32AsU32 f.advance_y + 1 < atlasSize →
        cacheGlyph p f c = .ok { f with
          cur_x := 0 + p.glyphW c + 1,
          cur_y := f.cur_y + i32AsU32 f.advance_y + 1,
          glyphs := (c,
            ⟨some ⟨((0 : Int), ((f.cur_y + i32AsU32 f.advance_y + 1 : Nat) : Int)),
              ((p.glyphW c : Int), (p.glyphH c : Int)),
              p.glyphLeft c, p.glyphTop c⟩, p.advX c⟩) :: f.glyphs })
    ∧ ((assocLookup c f.glyphs).isSome = false → p.isWs c = false →
        atlasSize ≤
          (if f.cur_x + p.glyphW c ≥ atlasSize then f.cur_y + i32AsU32 f.advance_y + 1
            else f.cur_y) →
        cacheGlyph p f c = .error "Font cache full") := by
  refine ⟨fun h => by simp [cacheGlyph, h], ?_, ?_, ?_⟩
  · intro h hw hx hy
    have hlt : ¬(f.cur_x + p.glyphW c ≥ atlasSize) := by omega
    simp [cacheGlyph, h, hw, hlt, Nat.not_le.mpr hy]
  · intro h hw hx hy
    have hge : f.cur_x + p.glyphW c ≥ atlasSize := hx
    simp [cacheGlyph, h, hw, hge, Nat.not_le.mpr hy]
  · intro h hw hy
    by_cases hx : f.cur_x + p.glyphW c ≥ atlasSize
    · rw [if_pos hx] at hy
      simp [cacheGlyph, h, hw, hx, hy]
    · rw [if_neg hx] at hy
      simp [cacheGlyph, h, hw, hx, hy]

theorem C3_glyph_packing_witness :
    cacheGlyph
        { advX := fun _ => 6, kern := fun _ _ => 0, isWs := fun _ => false,
          glyphW := fun _ => 5, glyphH := fun _ => 7,
          glyphLeft := fun _ => 0, glyphTop := fun _ => 0 }
        { advance_y := 10, glyphs := [], kerning := [], cur_x := 3, cur_y := 4 }
        'a' =
      .ok
        { advance_y := 10,
          glyphs := [('a',
            ⟨some ⟨((3 : Int), (4 : Int)), ((5 : Int), (7 : Int)), 0, 0⟩, 6⟩)],
          kerning := [], cur_x := 3 + 5 + 1, cur_y := 4 } :=
  (C3_glyph_packing _ _ 'a').2.1 rfl rfl (by decide) (by decide)

/-- `FontInner::get_kerning` (`src/gui/text.rs` lines 254-262): on a
vacant entry compute the font's pair kerning, store and return it; on an
occupied entry return the stored value. -/
def getKerning (p : FontParams) (f : FontState) (a b : Char) : ℚ × FontState :=
  match assocLookup (a, b) f.kerning with
  | none =>
      ((p.kern a b), { f with kerning := ((a, b), p.kern a b) :: f.kerning })
  | some v => (v, f)

/-- `FontInner::horiz_advance_between` (`src/gui/text.rs` lines 485-489):
kerning plus the cached glyph's `advance_x`; indexing an uncached glyph
(`&self.glyphs[&c]`) panics. -/
def horizAdvanceBetween (p : FontParams) (f : FontState) (a b : Char) :
    Except String (ℚ × FontState) :=
  let kf := getKerning p f a b
  match assocLookup a kf.2.glyphs with
  | some g => .ok (g.advance_x + kf.1, kf.2)
  | none => .error "glyph not cached"

/-- `FontInner::horiz_advance_after` (`src/gui/text.rs` lines 492-494). -/
def horizAdvanceAfter (f : FontState) (a : Char) : Except String ℚ :=
  match assocLookup a f.glyphs with
  | some g => .ok g.advance_x
  | none => .error "glyph not cached"

/-- The `for c in str.chars() { self.cache_glyph(context, c); }` loop at
the top of `string_width`. -/
def cacheGlyphs (p : FontParams) (f : FontState) : List Char → Except String FontState
  | [] => .ok f
  | c :: cs =>
      match cacheGlyph p f c with
      | .error m => .error m
      | .ok f2 => cacheGlyphs p f2 cs

/-- The main loop of `string_width` (`src/gui/text.rs` lines 505-519),
driven by the two iterators: when the look-ahead iterator is exhausted,
add `horiz_advance_after` of the current char and stop; otherwise add
`horiz_advance_between` of the pair and continue.  An empty iterator
state models the unreachable `iterator_a.next().unwrap()` panic. -/
def stringWidthLoop (p : FontParams) (f : FontState) (width : ℚ) :
    List Char → Except String (ℚ × FontState)
  | [] => .error "unwrap() panicked"
  | [a] =>
      match horizAdvanceAfter f a with
      | .error m => .error m
      | .ok adv => .ok (width + adv, f)
  | a :: b :: rest =>
      match horizAdvanceBetween p f a b with
      | .error m => .error m
      | .ok (adv, f2) => stringWidthLoop p f2 (width + adv) (b :: rest)

/-- `FontInner::string_width` (`src/gui/text.rs` lines 497-521): cache
every char, return `0.0` for the empty string, and otherwise run the
pair loop starting from width `0`. -/
def stringWidth (p : FontParams) (f : FontState) (cs : List Char) :
    Except String (ℚ × FontState) :=
  match cacheGlyphs p f cs with
  | .error m => .error m
  | .ok f1 =>
      if cs.isEmpty then .ok (0, f1)
      else stringWidthLoop p f1 0 cs

/-- The width formula of the C9 claim: the sum over consecutive pairs
`(a, b)` of `advance_x a + kerning a b`, plus `advance_x` of the final
character. -/
def specWidth (p : FontParams) (cs : List Char) : ℚ :=
  ((cs.zip cs.tail).map (fun ab => p.advX ab.1 + p.kern ab.1 ab.2)).sum +
    (match cs.getLast? with
     | some z => p.advX z
     | none => 0)

/-- All cached kerning values agree with the font's pair kerning. -/
def kernConsistent (p : FontParams) (f : FontState) : Prop :=
  ∀ a b v, assocLookup (a, b) f.kerning = some v → v = p.kern a b

/-- All cached glyphs carry the font's advance for their char. -/
def glyphConsistent (p : FontParams) (f : FontState) : Prop :=
  ∀ c g, assocLookup c f.glyphs = some g → g.advance_x = p.advX c

theorem getKerning_consistent (p : FontParams) (f : FontState) (a b : Char)
    (h : kernConsistent p f) :
    (getKerning p f a b).1 = p.kern a b ∧ kernConsistent p (getKerning p f a b).2 ∧
      (getKerning p f a b).2.glyphs = f.glyphs := by
  unfold getKerning
  cases hk : assocLookup (a, b) f.kerning with
  | none =>
      refine ⟨rfl, ?_, rfl⟩
      intro x y v hv
      simp only [assocLookup] at hv
      by_cases hxy : (a, b) = (x, y)
      · obtain ⟨rfl, rfl⟩ := Prod.mk.inj hxy
        rw [if_pos rfl] at hv
        simp at hv
        exact hv.symm
      · rw [if_neg hxy] at hv
        exact h x y v hv
  | some v => exact ⟨h a b v hk, h, rfl⟩

theorem glyphMap_insert_facts (p : FontParams) (gl : List (Char × CachedGlyph))
    (c : Char) (g : CachedGlyph) (hadv : g.advance_x = p.advX c)
    (h : ∀ d g2, assocLookup d gl = some g2 → g2.advance_x = p.advX d) :
    (∀ d g2, assocLookup d ((c, g) :: gl) = some g2 → g2.advance_x = p.advX d) ∧
      (assocLookup c ((c, g) :: gl)).isSome = true ∧
      (∀ d, (assocLookup d gl).isSome = true →
        (assocLookup d ((c, g) :: gl)).isSome = true) := by
  refine ⟨?_, by simp [assocLookup], ?_⟩
  · intro d g2 hg2
    simp only [assocLookup] at hg2
    by_cases hdc : c = d
    · subst hdc
      simp at hg2
      simp [← hg2, hadv]
    · rw [if_neg hdc] at hg2
      exact h d g2 hg2
  · intro d hd
    simp only [assocLookup]
    by_cases hdc : c = d
    · simp [hdc]
    · rw [if_neg hdc]
      exact hd

theorem cacheGlyph_consistency (p : FontParams) (f f2 : FontState) (c : Char)
    (hok : cacheGlyph p f c = .ok f2) (h : glyphConsistent p f) :
    glyphConsistent p f2 ∧ (assocLookup c f2.glyphs).isSome = true ∧
      (∀ d, (assocLookup d f.glyphs).isSome = true →
        (assocLookup d f2.glyphs).isSome = true) ∧
      f2.kerning = f.kerning := by
  by_cases hc : (assocLookup c f.glyphs).isSome = true
  · simp only [cacheGlyph, hc, if_true] at hok
    obtain rfl := Except.ok.inj hok
    exact ⟨h, hc, fun d hd => hd, rfl⟩
  · by_cases hws : p.isWs c = true
    · simp only [cacheGlyph, hc, hws, if_true, if_false] at hok
      obtain rfl := Except.ok.inj hok
      have hfacts := glyphMap_insert_facts p f.glyphs c ⟨none, p.advX c⟩ rfl h
      exact ⟨hfacts.1, hfacts.2.1, hfacts.2.2, rfl⟩
    · by_cases hline : f.cur_x + p.glyphW c ≥ atlasSize
      · by_cases hy : f.cur_y + i32AsU32 f.advance_y + 1 ≥ atlasSize
        · simp [cacheGlyph, hc, hws, hline, hy] at hok
        · simp only [cacheGlyph, hc, hws, hline, hy, decide_True, decide_False,
            if_true, if_false, Bool.false_eq_true] at hok
          obtain rfl := Except.ok.inj hok
          have hfacts := glyphMap_insert_facts p f.glyphs c
            ⟨some ⟨((0 : Int), ((f.cur_y + i32AsU32 f.advance_y + 1 : Nat) : Int)),
              ((p.glyphW c : Int), (p.glyphH c : Int)),
              p.glyphLeft c, p.glyphTop c⟩, p.advX c⟩ rfl h
          exact ⟨hfacts.1, hfacts.2.1, hfacts.2.2, rfl⟩
      · by_cases hy : f.cur_y ≥ atlasSize
        · simp [cacheGlyph, hc, hws, hline, hy] at hok
        · simp only [cacheGlyph, hc, hws, hline, hy, decide_True, decide_False,
            if_true, if_false, Bool.false_eq_true] at hok
          obtain rfl := Except.ok.inj hok
          have hfacts := glyphMap_insert_facts p f.glyphs c
            ⟨some ⟨((f.cur_x : Int), (f.cur_y : Int)),
              ((p.glyphW c : Int), (p.glyphH c : Int)),
              p.glyphLeft c, p.glyphTop c⟩, p.advX c⟩ rfl h
          exact ⟨hfacts.1, hfacts.2.1, hfacts.2.2, rfl⟩

theorem cacheGlyphs_ok (p : FontParams) :
    ∀ (cs : List Char) (f f1 : FontState),
      cacheGlyphs p f cs = .ok f1 → glyphConsistent p f →
      glyphConsistent p f1 ∧ (∀ c ∈ cs, (assocLookup c f1.glyphs).isSome = true) ∧
        (∀ d, (assocLookup d f.glyphs).isSome = true →
          (assocLookup d f1.glyphs).isSome = true) ∧
        f1.kerning = f.kerning := by
  intro cs
  induction cs with
  | nil =>
      intro f f1 hok h
      rw [cacheGlyphs] at hok
      obtain rfl := Except.ok.inj hok
      exact ⟨h, by simp, fun d hd => hd, rfl⟩
  | cons c cs ih =>
      intro f f1 hok h
      rw [cacheGlyphs] at hok
      cases hstep : cacheGlyph p f c with
      | error m => rw [hstep] at hok; exact absurd hok (by simp)
      | ok f2 =>
          rw [hstep] at hok
          have h2 := cacheGlyph_consistency p f f2 c hstep h
          obtain ⟨hcons, hmem, hmono, hkern⟩ := ih f2 f1 hok h2.1
          refine ⟨hcons, ?_, ?_, by rw [hkern, h2.2.2.2]⟩
          · intro d hd
            rcases List.mem_cons.mp hd with rfl | hd2
            · exact hmono d h2.2.1
            · exact hmem d hd2
          · intro d hd
            exact hmono d (h2.2.2.1 d hd)

theorem specWidth_cons (p : FontParams) (a b : Char) (rest : List Char) :
    specWidth p (a :: b :: rest) = (p.advX a + p.kern a b) + specWidth p (b :: rest) := by
  simp only [specWidth, List.zip_cons_cons, List.map_cons, List.sum_cons,
    List.tail_cons, List.getLast?_cons_cons]
  ring

theorem stringWidthLoop_spec (p : FontParams) :
    ∀ (cs : List Char) (a : Char) (f : FontState) (width : ℚ),
      (∀ c ∈ a :: cs, (assocLookup c f.glyphs).isSome = true) →
      glyphConsistent p f → kernConsistent p f →
      ∃ f2, stringWidthLoop p f width (a :: cs) = .ok (width + specWidth p (a :: cs), f2) := by
  intro cs
  induction cs with
  | nil =>
      intro a f width hmem hg hk
      obtain ⟨g, hga⟩ := Option.isSome_iff_exists.mp (hmem a (by simp))
      refine ⟨f, ?_⟩
      rw [stringWidthLoop]
      simp [horizAdvanceAfter, hga, hg a g hga, specWidth]
  | cons b rest ih =>
      intro a f width hmem hg hk
      have hkc := getKerning_consistent p f a b hk
      obtain ⟨g, hga⟩ := Option.isSome_iff_exists.mp (hmem a (by simp))
      have hga1 : assocLookup a (getKerning p f a b).2.glyphs = some g := by
        rw [hkc.2.2]; exact hga
      have hg1 : glyphConsistent p (getKerning p f a b).2 := by
        intro d g2 hd
        rw [hkc.2.2] at hd
        exact hg d g2 hd
      have hmem1 : ∀ c ∈ b :: rest, (assocLookup c (getKerning p f a b).2.glyphs).isSome = true := by
        intro c hc
        rw [hkc.2.2]
        exact hmem c (List.mem_cons_of_mem a hc)
      obtain ⟨f2, hrec⟩ := ih b (getKerning p f a b).2
        (width + (g.advance_x + (getKerning p f a b).1)) hmem1 hg1 hkc.2.1
      refine ⟨f2, ?_⟩
      rw [stringWidthLoop]
      simp only [horizAdvanceBetween, hga1]
      rw [hrec]
      have hadv : g.advance_x = p.advX a := hg a g hga
      rw [hadv, hkc.1, specWidth_cons]
      ring_nf

/-- **C9**: kerning for a pair is computed at most once — the first
`get_kerning` call for `(a, b)` stores the font's pair kerning and every
later call returns the stored value — and caching does not change
results (under the invariant that stored values are the font's, the
returned value is always the font's pair kerning and the invariant is
preserved); `string_width` returns `0.0` for the empty string, and for a
non-empty string (whose glyph caching pass succeeds) the sum over
consecutive pairs `(a, b)` of `advance_x a + kerning a b` plus
`advance_x` of the final character. -/
theorem C9_kerning_and_width (p : FontParams) (f : FontState) :
    (∀ a b, assocLookup (a, b) f.kerning = none →
      getKerning p f a b =
        (p.kern a b, { f with kerning := ((a, b), p.kern a b) :: f.kerning }))
    ∧ (∀ a b v, assocLookup (a, b) f.kerning = some v → getKerning p f a b = (v, f))
    ∧ (kernConsistent p f → ∀ a b,
        (getKerning p f a b).1 = p.kern a b ∧ kernConsistent p (getKerning p f a b).2)
    ∧ (stringWidth p f [] = .ok (0, f))
    ∧ (∀ (cs : List Char) (f1 : FontState), cs ≠ [] →
        glyphConsistent p f → kernConsistent p f →
        cacheGlyphs p f cs = .ok f1 →
        ∃ f2, stringWidth p f cs = .ok (specWidth p cs, f2)) := by
  refine ⟨?_, ?_, ?_, rfl, ?_⟩
  · intro a b h
    unfold getKerning
    rw [h]
  · intro a b v h
    unfold getKerning
    rw [h]
  · intro hk a b
    have h := getKerning_consistent p f a b hk
    exact ⟨h.1, h.2.1⟩
  · intro cs f1 hne hg hk hok
    obtain ⟨hcons1, hmem1, hmono1, hkern1⟩ := cacheGlyphs_ok p cs f f1 hok hg
    have hk1 : kernConsistent p f1 := by
      intro a b v hv
      rw [hkern1] at hv
      exact hk a b v hv
    cases cs with
    | nil => exact absurd rfl hne
    | cons a rest =>
        obtain ⟨f2, hloop⟩ := stringWidthLoop_spec p rest a f1 0 hmem1 hcons1 hk1
        refine ⟨f2, ?_⟩
        unfold stringWidth
        rw [hok]
        simp only [List.isEmpty_cons, Bool.false_eq_true, if_false]
        rw [hloop, zero_add]

/-- Concrete font inputs to instantiate the C9 theorem. -/
def sampleFontParams : FontParams :=
  { advX := fun _ => 3, kern := fun _ _ => 2, isWs := fun _ => false,
    glyphW := fun _ => 4, glyphH := fun _ => 5,
    glyphLeft := fun _ => 0, glyphTop := fun _ => 0 }

/-- A fresh font state to instantiate the C9 theorem. -/
def sampleFontState : FontState :=
  { advance_y := 7, glyphs := [], kerning := [], cur_x := 0, cur_y := 0 }

theorem C9_kerning_and_width_witness :
    ∃ f2, stringWidth sampleFontParams sampleFontState ['a', 'b'] =
      .ok (specWidth sampleFontParams ['a', 'b'], f2) :=
  (C9_kerning_and_width sampleFontParams sampleFontState).2.2.2.2 ['a', 'b']
    { advance_y := 7,
      glyphs := [('b', ⟨some ⟨((5 : Int), (0 : Int)), ((4 : Int), (5 : Int)), 0, 0⟩, 3⟩),
        ('a', ⟨some ⟨((0 : Int), (0 : Int)), ((4 : Int), (5 : Int)), 0, 0⟩, 3⟩)],
      kerning := [], cur_x := 10, cur_y := 0 }
    (by simp)
    (fun c g h => by simp [sampleFontState, assocLookup] at h)
    (fun a b v h => by simp [sampleFontState, assocLookup] at h)
    rfl

/-- `enum DrawMode` (`src/gl/mesh.rs` lines 36-39). -/
inductive DrawMode where
  | draw2D
  | draw3D (depth : Bool)
deriving DecidableEq

/-- `enum GlFlag` (`src/gl/context.rs` lines 50-53). -/
inductive GlFlag where
  | depthTest
  | cullFace
deriving DecidableEq

/-- An abstract driver call issued by the wrapper layer. -/
inductive GlCall where
  | useProgram (program : Nat)
  | bindDrawFramebuffer (fb : Option Nat)
  | bindReadFramebuffer (fb : Option Nat)
  | setViewport (r : Rect)
  | activeTexture (unit : Nat)
  | bindTexture (target : Nat) (tex : Nat)
  | enable (f : GlFlag)
  | disable (f : GlFlag)
deriving DecidableEq

/-- `glow::TEXTURE_2D`. -/
def TEXTURE_2D : Nat := 3553

/-- `glow::TEXTURE0`. -/
def TEXTURE0 : Nat := 33984

/-- `struct GlContextCache` (`src/gl/context.rs` lines 29-35): the cached
draw mode, bound program, bound draw/read framebuffers, and the 32
texture units, each holding `Option<(u32 target, TextureId)>`. -/
structure GlContextCache where
  draw_mode : Option DrawMode
  bound_program : Option Nat
  bound_framebuffer : Option Nat
  bound_read_framebuffer : Option Nat
  bound_textures : Fin 32 → Option (Nat × Nat)

/-- `GlContextCache::new`. -/
def GlContextCache.new : GlContextCache :=
  { draw_mode := none, bound_program := none, bound_framebuffer := none,
    bound_read_framebuffer := none, bound_textures := fun _ => none }

/-- `GlProgram::bind` (`src/gl/program.rs` lines 117-126): issue
`use_program` only when the cached program id differs, updating the
cache.  Returns the new cache and the driver calls issued. -/
def glProgramBind (id program : Nat) (cache : GlContextCache) :
    GlContextCache × List GlCall :=
  if cache.bound_program ≠ some id then
    ({ cache with bound_program := some id }, [.useProgram program])
  else (cache, [])

/-- `Texture2d::bind` (`src/gl/texture.rs` lines 350-359): issue
`active_texture`/`bind_texture` only when the unit's cached binding is
not this texture on `TEXTURE_2D`. -/
def texture2dBind (id tex : Nat) (unit : Fin 32) (cache : GlContextCache) :
    GlContextCache × List GlCall :=
  if cache.bound_textures unit ≠ some (TEXTURE_2D, id) then
    ({ cache with bound_textures :=
        fun u => if u = unit then some (TEXTURE_2D, id) else cache.bound_textures u },
      [.activeTexture (TEXTURE0 + unit.val), .bindTexture TEXTURE_2D tex])
  else (cache, [])

/-- `Framebuffer::bind` (`src/gl/framebuffer.rs` lines 209-218): bind the
draw framebuffer and set the viewport only when not already bound. -/
def framebufferBind (id fb : Nat) (viewport : Rect) (cache : GlContextCache) :
    GlContextCache × List GlCall :=
  if cache.bound_framebuffer ≠ some id then
    ({ cache with bound_framebuffer := some id },
      [.bindDrawFramebuffer (some fb), .setViewport viewport])
  else (cache, [])

/-- `Framebuffer::bind_read` (`src/gl/framebuffer.rs` lines 221-229). -/
def framebufferBindRead (id fb : Nat) (cache : GlContextCache) :
    GlContextCache × List GlCall :=
  if cache.bound_read_framebuffer ≠ some id then
    ({ cache with bound_read_framebuffer := some id }, [.bindReadFramebuffer (some fb)])
  else (cache, [])

/-- `ScreenSurface::bind` (`src/gl/surface.rs`, both targets): bind the
default framebuffer (`None`) and set the viewport only when not already
bound. -/
def screenSurfaceBind (id : Nat) (viewport : Rect) (cache : GlContextCache) :
    GlContextCache × List GlCall :=
  if cache.bound_framebuffer ≠ some id then
    ({ cache with bound_framebuffer := some id },
      [.bindDrawFramebuffer none, .setViewport viewport])
  else (cache, [])

/-- `ScreenSurface::bind_read` (`src/gl/surface.rs`, both targets). -/
def screenSurfaceBindRead (id : Nat) (cache : GlContextCache) :
    GlContextCache × List GlCall :=
  if cache.bound_read_framebuffer ≠ some id then
    ({ cache with bound_read_framebuffer := some id }, [.bindReadFramebuffer none])
  else (cache, [])

/-- The enable/disable calls `DrawMode::bind` issues on a cache miss
(`src/gl/mesh.rs` lines 47-60). -/
def drawModeCalls : DrawMode → List GlCall
  | .draw2D => [.disable .cullFace, .disable .depthTest]
  | .draw3D depth =>
      .enable .cullFace :: (if depth then [.enable .depthTest] else [.disable .depthTest])

/-- `DrawMode::bind` (`src/gl/mesh.rs` lines 42-62). -/
def drawModeBind (m : DrawMode) (cache : GlContextCache) :
    GlContextCache × List GlCall :=
  if cache.draw_mode ≠ some m then
    ({ cache with draw_mode := some m }, drawModeCalls m)
  else (cache, [])

/-- **C4**: every bind operation that goes through the context's
binding-state cache compares the requested binding against the cached
one, issues the underlying driver calls only when they differ (updating
the cache to the new binding), and is a complete no-op — no driver call,
cache unchanged — when the cache already records the requested binding. -/
theorem C4_binding_cache (cache : GlContextCache) :
    (∀ id program, (cache.bound_program = some id →
          glProgramBind id program cache = (cache, []))
      ∧ (cache.bound_program ≠ some id →
          glProgramBind id program cache =
            ({ cache with bound_program := some id }, [.useProgram program])))
    ∧ (∀ id tex (unit : Fin 32), (cache.bound_textures unit = some (TEXTURE_2D, id) →
          texture2dBind id tex unit cache = (cache, []))
      ∧ (cache.bound_textures unit ≠ some (TEXTURE_2D, id) →
          texture2dBind id tex unit cache =
            ({ cache with bound_textures :=
                fun u => if u = unit then some (TEXTURE_2D, id)
                  else cache.bound_textures u },
              [.activeTexture (TEXTURE0 + unit.val), .bindTexture TEXTURE_2D tex])))
    ∧ (∀ id fb viewport, (cache.bound_framebuffer = some id →
          framebufferBind id fb viewport cache = (cache, []))
      ∧ (cache.bound_framebuffer ≠ some id →
          framebufferBind id fb viewport cache =
            ({ cache with bound_framebuffer := some id },
              [.bindDrawFramebuffer (some fb), .setViewport viewport])))
    ∧ (∀ id fb, (cache.bound_read_framebuffer = some id →
          framebufferBindRead id fb cache = (cache, []))
      ∧ (cache.bound_read_framebuffer ≠ some id →
          framebufferBindRead id fb cache =
            ({ cache with bound_read_framebuffer := some id },
              [.bindReadFramebuffer (some fb)])))
    ∧ (∀ id viewport, (cache.bound_framebuffer = some id →
          screenSurfaceBind id viewport cache = (cache, []))
      ∧ (cache.bound_framebuffer ≠ some id →
          screenSurfaceBind id viewport cache =
            ({ cache with bound_framebuffer := some id },
              [.bindDrawFramebuffer none, .setViewport viewport])))
    ∧ (∀ id, (cache.bound_read_framebuffer = some id →
          screenSurfaceBindRead id cache = (cache, []))
      ∧ (cache.bound_read_framebuffer ≠ some id →
          screenSurfaceBindRead id cache =
            ({ cache with bound_read_framebuffer := some id }, [.bindReadFramebuffer none])))
    ∧ (∀ m, (cache.draw_mode = some m → drawModeBind m cache = (cache, []))
      ∧ (cache.draw_mode ≠ some m →
          drawModeBind m cache = ({ cache with draw_mode := some m }, drawModeCalls m))) := by
  refine ⟨fun id program => ⟨?_, ?_⟩, fun id tex unit => ⟨?_, ?_⟩,
    fun id fb viewport => ⟨?_, ?_⟩, fun id fb => ⟨?_, ?_⟩,
    fun id viewport => ⟨?_, ?_⟩, fun id => ⟨?_, ?_⟩, fun m => ⟨?_, ?_⟩⟩ <;>
    intro h <;>
    simp [glProgramBind, texture2dBind, framebufferBind, framebufferBindRead,
      screenSurfaceBind, screenSurfaceBindRead, drawModeBind, h]

theorem C4_binding_cache_witness :
    glProgramBind 5 9 { GlContextCache.new with bound_program := some 5 } =
      ({ GlContextCache.new with bound_program := some 5 }, []) :=
  ((C4_binding_cache { GlContextCache.new with bound_program := some 5 }).1 5 9).1 rfl

/-- `glow::FRAMEBUFFER_COMPLETE`. -/
def FRAMEBUFFER_COMPLETE : Nat := 36053

/-- `GlProgram::load_shader` (`src/gl/program.rs` lines 101-115): panics
(`error!` then `panic!()`) when the driver reports compile failure. -/
def loadShader (compileStatus : Bool) : Except String Unit :=
  if compileStatus then .ok () else .error "Error compiling shader"

/-- `GlProgram::new` (`src/gl/program.rs` lines 67-99): compile the
vertex shader, then the fragment shader, then link; panic on the first
false status.  Parameterized by the statuses the driver reports. -/
def glProgramNew (vertCompile fragCompile linkStatus : Bool) : Except String Unit :=
  match loadShader vertCompile with
  | .error m => .error m
  | .ok _ =>
      match loadShader fragCompile with
      | .error m => .error m
      | .ok _ => if linkStatus then .ok () else .error "Error linking program"

/-- `Framebuffer::new` (`src/gl/framebuffer.rs` lines 156-182): panic
unless `check_framebuffer_status` returns `FRAMEBUFFER_COMPLETE`. -/
def framebufferNew (framebufferStatus : Nat) : Except String Unit :=
  if framebufferStatus = FRAMEBUFFER_COMPLETE then .ok ()
  else .error "Framebuffer not complete"

/-- **C7**: unexpected native-API failures terminate the process:
`GlProgram::new` returns normally iff both shader compile statuses and
the link status are true and otherwise panics, `Framebuffer::new`
returns normally iff the completeness check returns
`FRAMEBUFFER_COMPLETE` and otherwise panics; neither returns an error
value or recovers — the only outcomes are normal return and panic. -/
theorem C7_panic_on_failure :
    (∀ st, loadShader st = .ok () ↔ st = true)
    ∧ (∀ vc fc ls, glProgramNew vc fc ls = .ok () ↔ (vc = true ∧ fc = true ∧ ls = true))
    ∧ (∀ vc fc ls, (∃ m, glProgramNew vc fc ls = .error m)
        ↔ ¬(vc = true ∧ fc = true ∧ ls = true))
    ∧ (∀ s, framebufferNew s = .ok () ↔ s = FRAMEBUFFER_COMPLETE)
    ∧ (∀ s, s ≠ FRAMEBUFFER_COMPLETE → framebufferNew s = .error "Framebuffer not complete") := by
  refine ⟨?_, ?_, ?_, ?_, ?_⟩
  · intro st
    cases st <;> simp [loadShader]
  · intro vc fc ls
    cases vc <;> cases fc <;> cases ls <;> simp [glProgramNew, loadShader]
  · intro vc fc ls
    cases vc <;> cases fc <;> cases ls <;> simp [glProgramNew, loadShader]
  · intro s
    by_cases hs : s = FRAMEBUFFER_COMPLETE <;> simp [framebufferNew, hs]
  · intro s hs
    simp [framebufferNew, hs]

theorem C7_panic_on_failure_witness :
    framebufferNew 36054 = .error "Framebuffer not complete" :=
  C7_panic_on_failure.2.2.2.2 36054 (by decide)

/-- `struct MeshBuilder` (`src/gl/mesh.rs` lines 72-77): the flattened
`f32` vertex data, the index list, and the next index (a `u16`). -/
structure MeshBuilderState where
  vertex_data : List ℚ
  indices : List Nat
  next_index : Nat
deriving DecidableEq

/-- `MeshBuilder::new` (`src/gl/mesh.rs` line 100). -/
def meshBuilderNew : MeshBuilderState :=
  { vertex_data := [], indices := [], next_index := 0 }

/-- `MeshBuilder::vert` (`src/gl/mesh.rs` lines 106-112):
`assert!(self.next_index < MeshIndex::max_value())` (`u16::MAX = 65535`)
panics when it fails; otherwise return the current index, bump it, and
append the vertex's components. -/
def meshBuilderVert (mb : MeshBuilderState) (vertData : List ℚ) :
    Except String (Nat × MeshBuilderState) :=
  if mb.next_index < 65535 then
    .ok (mb.next_index,
      { mb with
          next_index := mb.next_index + 1,
          vertex_data := mb.vertex_data ++ vertData })
  else .error "assertion failed: next_index < MeshIndex max_value"

/-- `n` successive `vert` calls with the same vertex data, collecting the
returned indices. -/
def meshBuilderVertN (vertData : List ℚ) : Nat → MeshBuilderState →
    Except String (List Nat × MeshBuilderState)
  | 0, mb => .ok ([], mb)
  | n + 1, mb =>
      match meshBuilderVert mb vertData with
      | .error m => .error m
      | .ok (i, mb2) =>
          match meshBuilderVertN vertData n mb2 with
          | .error m => .error m
          | .ok (is, mb3) => .ok (i :: is, mb3)

theorem meshBuilderVertN_ok (vertData : List ℚ) :
    ∀ (n : Nat) (mb : MeshBuilderState), mb.next_index + n ≤ 65535 →
      ∃ mb2, meshBuilderVertN vertData n mb = .ok (List.range' mb.next_index n, mb2) ∧
        mb2.next_index = mb.next_index + n := by
  intro n
  induction n with
  | zero =>
      intro mb hle
      exact ⟨mb, rfl, rfl⟩
  | succ n ih =>
      intro mb hle
      have hlt : mb.next_index < 65535 := by omega
      obtain ⟨mb2, hok, hidx⟩ := ih
        { mb with
            next_index := mb.next_index + 1,
            vertex_data := mb.vertex_data ++ vertData } (by simp; omega)
      refine ⟨mb2, ?_, by simp [hidx]; omega⟩
      rw [meshBuilderVertN, meshBuilderVert, if_pos hlt]
      simp [hok, List.range'_succ]

/-- **C10**: `MeshBuilder::vert` returns sequential indices `0, 1, 2, …`
and asserts `next_index < 65535` (the maximum `u16` mesh-index value)
before adding, so a fresh builder accepts at most 65535 vertices —
calls `0 .. 65534` return indices `0 .. 65534` — and the next `vert`
call after 65535 successful ones panics. -/
theorem C10_mesh_index_limit (vertData : List ℚ) :
    (∀ mb i mb2, meshBuilderVert mb vertData = .ok (i, mb2) →
      i = mb.next_index ∧ mb2.next_index = mb.next_index + 1)
    ∧ (∀ mb, (∃ m, meshBuilderVert mb vertData = .error m) ↔ 65535 ≤ mb.next_index)
    ∧ (∀ n, n ≤ 65535 →
        ∃ mb2, meshBuilderVertN vertData n meshBuilderNew = .ok (List.range n, mb2) ∧
          mb2.next_index = n)
    ∧ (∀ mb2, meshBuilderVertN vertData 65535 meshBuilderNew = .ok (List.range 65535, mb2) →
        meshBuilderVert mb2 vertData =
          .error "assertion failed: next_index < MeshIndex max_value") := by
  refine ⟨?_, ?_, ?_, ?_⟩
  · intro mb i mb2 h
    rw [meshBuilderVert] at h
    split at h
    · simp only [Except.ok.injEq, Prod.mk.injEq] at h
      obtain ⟨rfl, rfl⟩ := h
      exact ⟨rfl, rfl⟩
    · exact absurd h (by simp)
  · intro mb
    constructor
    · rintro ⟨m, hm⟩
      rw [meshBuilderVert] at hm
      split at hm
      · exact absurd hm (by simp)
      · omega
    · intro hge
      exact ⟨_, by rw [meshBuilderVert, if_neg (by omega)]⟩
  · intro n hn
    obtain ⟨mb2, hok, hidx⟩ := meshBuilderVertN_ok vertData n meshBuilderNew (by simp [meshBuilderNew]; omega)
    refine ⟨mb2, ?_, by simpa [meshBuilderNew] using hidx⟩
    rw [hok]
    simp [meshBuilderNew, List.range_eq_range']
  · intro mb2 hok
    obtain ⟨mb3, hok3, hidx3⟩ := meshBuilderVertN_ok vertData 65535 meshBuilderNew (by simp [meshBuilderNew])
    have : mb2 = mb3 := by
      rw [hok] at hok3
      simp only [meshBuilderNew, List.range_eq_range'] at hok3 ⊢
      have := Except.ok.inj hok3
      exact (Prod.mk.inj this).2
    subst this
    rw [meshBuilderVert, if_neg (by simp [meshBuilderNew] at hidx3; omega)]

theorem C10_mesh_index_limit_witness :
    (0 : Nat) = meshBuilderNew.next_index ∧
      ({ meshBuilderNew with
          next_index := meshBuilderNew.next_index + 1,
          vertex_data := meshBuilderNew.vertex_data ++ [1, 2] } : MeshBuilderState).next_index
        = meshBuilderNew.next_index + 1 :=
  (C10_mesh_index_limit [1, 2]).1 meshBuilderNew 0
    { meshBuilderNew with
        next_index := meshBuilderNew.next_index + 1,
        vertex_data := meshBuilderNew.vertex_data ++ [1, 2] } rfl
